import Mathlib

/-!
Verification of the go-vdfloc core against its specification.

The development shallowly embeds the two source files of the repository:
  * utils.go        — encoding sniffer (UTFReader), transcoder (UTF8Conv,
                      NewUTFConvWriter);
  * pluralgender.go — plural/gender grammar validator.

Go strings are modelled as `List Char` (byte positions and rune positions
coincide on the ASCII tag/value alphabet the checks operate on; the order
of positions is preserved in general).  Go byte buffers are `List Nat`
with each element < 256.  Fallible Go functions returning `(res, err)`
become `Except String _`; a Go run-time panic (nil dereference,
out-of-range index) is modelled as `Option.none` where it can occur.
-/

namespace Vdfloc

set_option maxRecDepth 20000
set_option maxHeartbeats 2000000

/-- Go strings, modelled as lists of characters. -/
abbrev Str := List Char

/-! ## Go `strings` primitives (strings.Index, strings.Count, strings.Contains,
strings.HasSuffix, strings.ToLower), modelled from the Go standard library's
documented behaviour. -/

/-- Index of the first occurrence of `pat` in `s` (Go `strings.Index`),
`none` for Go's `-1`.  `strings.Index(s, "") = 0`. -/
def strIndex (s pat : Str) : Option Nat :=
  if pat.isPrefixOf s then some 0
  else
    match s with
    | [] => none
    | _ :: t => (strIndex t pat).map (· + 1)

/-- Go `strings.Index` with Go's `-1` convention. -/
def strIndexInt (s pat : Str) : Int :=
  match strIndex s pat with
  | none => -1
  | some i => (i : Int)

/-- Go `strings.Contains`. -/
def goContains (s pat : Str) : Bool :=
  (strIndex s pat).isSome

theorem strIndex_some_lt {s pat : Str} {i : Nat} (hp : pat ≠ [])
    (h : strIndex s pat = some i) : i < s.length := by
  induction s generalizing i with
  | nil =>
    rw [strIndex] at h
    cases pat with
    | nil => exact absurd rfl hp
    | cons a t => simp [List.isPrefixOf] at h
  | cons c t ih =>
    rw [strIndex] at h
    by_cases hpre : pat.isPrefixOf (c :: t)
    · simp [hpre] at h
      simp
      omega
    · simp [hpre] at h
      obtain ⟨j, hj, hji⟩ := h
      have := ih hj
      simp
      omega

/-- Start of `pat` in `s` is a genuine occurrence. -/
theorem strIndex_some_isPrefixOf {s pat : Str} {i : Nat}
    (h : strIndex s pat = some i) : pat.isPrefixOf (s.drop i) := by
  induction s generalizing i with
  | nil =>
    rw [strIndex] at h
    by_cases hpre : pat.isPrefixOf ([] : Str)
    · simp [hpre] at h
      subst h
      simpa using hpre
    · simp [hpre] at h
  | cons c t ih =>
    rw [strIndex] at h
    by_cases hpre : pat.isPrefixOf (c :: t)
    · simp [hpre] at h
      subst h
      simpa using hpre
    · simp [hpre] at h
      obtain ⟨j, hj, hji⟩ := h
      subst hji
      simpa using ih hj

/-- Number of non-overlapping occurrences of `pat` in `s` (Go
`strings.Count`): repeatedly find the first occurrence and skip past it.
For the empty pattern Go returns the rune count plus one. -/
def strCount (s pat : Str) : Nat :=
  match pat with
  | [] => s.length + 1
  | p :: q =>
    match h : strIndex s (p :: q) with
    | none => 0
    | some i => 1 + strCount (s.drop (i + (p :: q).length)) (p :: q)
termination_by s.length
decreasing_by
  have hlt : i < s.length := strIndex_some_lt (by simp) h
  simp
  omega

/-- Start positions of the successive non-overlapping occurrences of `pat`
in `s`, in the scan order used by Go's `strings.Count`/`strings.Index`. -/
def occPositions (s pat : Str) : List Nat :=
  match pat with
  | [] => []
  | p :: q =>
    match h : strIndex s (p :: q) with
    | none => []
    | some i =>
      i :: (occPositions (s.drop (i + (p :: q).length)) (p :: q)).map (· + (i + (p :: q).length))
termination_by s.length
decreasing_by
  have hlt : i < s.length := strIndex_some_lt (by simp) h
  simp
  omega

theorem strCount_eq_length_occPositions (s pat : Str) (hp : pat ≠ []) :
    strCount s pat = (occPositions s pat).length := by
  cases pat with
  | nil => exact absurd rfl hp
  | cons a t =>
    suffices h : ∀ (n : Nat) (s : Str), s.length = n →
        strCount s (a :: t) = (occPositions s (a :: t)).length from h s.length s rfl
    intro n
    induction n using Nat.strong_induction_on with
    | _ n ih =>
      intro s hs
      rw [strCount, occPositions]
      cases hidx : strIndex s (a :: t) with
      | none => simp
      | some i =>
        have hlt : i < s.length := strIndex_some_lt (by simp) hidx
        have hrec : (s.drop (i + (a :: t).length)).length < n := by
          subst hs
          simp
          omega
        change 1 + strCount (s.drop (i + (a :: t).length)) (a :: t) =
          (i :: (occPositions (s.drop (i + (a :: t).length)) (a :: t)).map
            (· + (i + (a :: t).length))).length
        rw [ih _ hrec _ rfl]
        simp
        omega

/-- Go `strings.HasSuffix`. -/
def goHasSuffix (s suf : Str) : Bool :=
  suf.isSuffixOf s

/-- Go `strings.ToLower` restricted to ASCII (all encoding names used by the
source are ASCII). -/
def goToLower (s : String) : String :=
  String.mk (s.data.map Char.toLower)

/-! ## utils.go — byte-order marks and the UTF-8 probe

Byte buffers are `List Nat` (each entry a byte value).  The BOM constants
are the package-level variables of utils.go. -/

def utf8bom : List Nat := [0xEF, 0xBB, 0xBF]
def utf16LEbom : List Nat := [0xFF, 0xFE]
def utf16BEbom : List Nat := [0xFE, 0xFF]
def utf32LEbom : List Nat := [0xFF, 0xFE, 0x00, 0x00]
def utf32BEbom : List Nat := [0x00, 0x00, 0xFE, 0xFF]

/-- Probe length constant of utils.go: `4 * 32 * 1024`. -/
def utf8ProbeLen : Nat := 4 * 32 * 1024

/-- Go `unicode/utf8.DecodeRune` (modelled from the Go standard library's
documented behaviour): returns the first rune of the buffer and the number
of bytes consumed; an empty buffer gives `(RuneError, 0)`, an invalid,
surrogate or non-shortest encoding gives `(RuneError, 1)` where
`RuneError = 0xFFFD`. -/
def utf8DecodeRune : List Nat → Nat × Nat
  | [] => (0xFFFD, 0)
  | b0 :: rest =>
    if b0 < 0x80 then (b0, 1)
    else if 0xC2 ≤ b0 ∧ b0 ≤ 0xDF then
      match rest with
      | b1 :: _ =>
        if 0x80 ≤ b1 ∧ b1 ≤ 0xBF then ((b0 - 0xC0) * 64 + (b1 - 0x80), 2) else (0xFFFD, 1)
      | [] => (0xFFFD, 1)
    else if 0xE0 ≤ b0 ∧ b0 ≤ 0xEF then
      match rest with
      | b1 :: b2 :: _ =>
        let lo1 := if b0 = 0xE0 then 0xA0 else 0x80
        let hi1 := if b0 = 0xED then 0x9F else 0xBF
        if lo1 ≤ b1 ∧ b1 ≤ hi1 ∧ 0x80 ≤ b2 ∧ b2 ≤ 0xBF then
          ((b0 - 0xE0) * 4096 + (b1 - 0x80) * 64 + (b2 - 0x80), 3)
        else (0xFFFD, 1)
      | _ => (0xFFFD, 1)
    else if 0xF0 ≤ b0 ∧ b0 ≤ 0xF4 then
      match rest with
      | b1 :: b2 :: b3 :: _ =>
        let lo1 := if b0 = 0xF0 then 0x90 else 0x80
        let hi1 := if b0 = 0xF4 then 0x8F else 0xBF
        if lo1 ≤ b1 ∧ b1 ≤ hi1 ∧ 0x80 ≤ b2 ∧ b2 ≤ 0xBF ∧ 0x80 ≤ b3 ∧ b3 ≤ 0xBF then
          ((b0 - 0xF0) * 262144 + (b1 - 0x80) * 4096 + (b2 - 0x80) * 64 + (b3 - 0x80), 4)
        else (0xFFFD, 1)
      | _ => (0xFFFD, 1)
    else (0xFFFD, 1)

theorem utf8DecodeRune_size_le (buf : List Nat) : (utf8DecodeRune buf).2 ≤ 4 := by
  cases buf with
  | nil => simp [utf8DecodeRune]
  | cons b0 rest =>
    simp only [utf8DecodeRune]
    repeat' split
    all_goals simp

/-- The probe loop of UTFReader (utils.go lines 100–108): the number of
bytes of the buffer consumed as valid UTF-8 runes before hitting the end, a
decode error, or the rune `U+FFFD` itself. -/
def utf8ScanLen : List Nat → Nat
  | [] => 0
  | b :: rest =>
    match utf8DecodeRune (b :: rest) with
    | (r, n) =>
      if n = 0 ∨ r = 0xFFFD then 0
      else n + utf8ScanLen ((b :: rest).drop n)
termination_by buf => buf.length
decreasing_by
  simp
  omega

/-! ## utils.go — UTFReader

The reader returned by UTFReader is either the source stream itself at a
position, or a `transform.NewReader` of the stream with a decoder; the
decoder choice is recorded symbolically. -/

inductive DecoderSpec where
  /-- utf32.UTF32(endianness, utf32.UseBOM).NewDecoder() -/
  | utf32Dec (bigEndian : Bool)
  /-- unicode.BOMOverride(encoding.Nop.NewDecoder()) -/
  | bomOverrideNop
  /-- unicode.BOMOverride(enc.NewDecoder()) for the registry encoding `name` -/
  | bomOverrideNamed (name : String)
  deriving DecidableEq, Repr

inductive GoReader where
  /-- the source file itself, positioned at `pos` -/
  | plain (content : List Nat) (pos : Nat)
  /-- transform.NewReader over the source file positioned at `pos` -/
  | transform (content : List Nat) (pos : Nat) (dec : DecoderSpec)
  deriving DecidableEq, Repr

/-- UTFReader (utils.go lines 40–139) on a non-nil file whose bytes are
`content`.  The named-encoding registry (`htmlindex.Get`, an external
library) is passed as the predicate `registry`.  Reads and seeks on the
pure byte list always succeed, and a read at end-of-file returns
`(0, io.EOF)`; the `nBom ≥ k && bom[0..k-1] = BOM` guards of the source
are expressed as `content.take k = BOM` (equivalent, since a take of a
short list is short). -/
def UTFReader (content : List Nat) (encodingName : String) (registry : String → Bool) :
    Except String (GoReader × String) :=
  -- nBom, err := f.Read(bom) with a 4-byte buffer (utf8.UTFMax)
  if content.length = 0 then
    -- empty file: return source file as is; encodingFound keeps its zero value ""
    .ok (.plain content 0, "")
  else if content.take 3 = utf8bom then
    -- utf-8 BOM: seek past it and return the source file
    .ok (.plain content 3, "UTF8BOM")
  else
    -- seek back to the beginning (always succeeds on the pure stream)
    if content.take 4 = utf32LEbom then
      .ok (.transform content 0 (.utf32Dec false), "UTF32LE")
    else if content.take 4 = utf32BEbom then
      .ok (.transform content 0 (.utf32Dec true), "UTF32BE")
    else if content.take 2 = utf16LEbom then
      .ok (.transform content 0 .bomOverrideNop, "UTF16LE")
    else if content.take 2 = utf16BEbom then
      .ok (.transform content 0 .bomOverrideNop, "UTF16BE")
    else
      -- no BOM detected
      let probed : Option (GoReader × String) :=
        if encodingName = "" then
          let nProbe := min utf8ProbeLen content.length
          if nProbe = 0 then
            -- source line 94: empty file observed during probing
            some (.plain content 0, "UTF32LE")
          else
            let nPos := utf8ScanLen (content.take utf8ProbeLen)
            -- file is utf-8 if all probed runes are utf-8 and the file fits the
            -- probe, or consumption reaches within UTFMax of the window edge
            if nProbe ≤ nPos ∨ utf8ProbeLen - 4 ≤ nPos then
              some (.plain content 0, "UTF8")
            else none
        else none
      match probed with
      | some r => .ok r
      | none =>
        let name := if encodingName = "" then "UTF8" else encodingName
        if registry name then
          .ok (.transform content 0 (.bomOverrideNamed name), name)
        else
          .error ("invalid encoding: " ++ name)

/-! ## utils.go — UTF-16 encoding (golang.org/x/text, modelled from the
library's documented behaviour) used by UTF8Conv and the conversion
writer. -/

/-- Decode a UTF-8 byte buffer to a list of runes, replacing invalid
sequences by `U+FFFD`, consuming bytes as `utf8.DecodeRune` does. -/
def utf8DecodeAll : List Nat → List Nat
  | [] => []
  | b :: rest =>
    match utf8DecodeRune (b :: rest) with
    | (r, n) => r :: utf8DecodeAll ((b :: rest).drop (max n 1))
termination_by buf => buf.length
decreasing_by
  simp

/-- One UTF-16 code unit as two bytes in the given endianness. -/
def utf16Unit (littleEndian : Bool) (u : Nat) : List Nat :=
  if littleEndian then [u % 256, u / 256] else [u / 256, u % 256]

/-- UTF-16 code units of one rune (surrogate pair above U+FFFF). -/
def utf16Units (r : Nat) : List Nat :=
  if r < 0x10000 then [r]
  else [0xD800 + (r - 0x10000) / 0x400, 0xDC00 + (r - 0x10000) % 0x400]

/-- unicode.UTF16(endianness, unicode.UseBOM).NewEncoder().Bytes(buf): a BOM
code unit followed by the UTF-16 encoding of the buffer's runes. -/
def utf16EncodeWithBom (littleEndian : Bool) (buf : List Nat) : List Nat :=
  ((0xFEFF :: (utf8DecodeAll buf).flatMap utf16Units).flatMap (utf16Unit littleEndian))

/-- UTF8Conv (utils.go lines 146–168).  `none` models the run-time panic
`enc.NewEncoder()` on the nil `enc` left by the switch's missing default
arm (any name outside utf8/utf8bom/utf16le/utf16be).  In the `utf8bom`
arm the source assigns `bom` and then immediately executes
`return buf, nil`, so the BOM bytes are never prepended; in the utf16 arms
`bom` is nil and `append(bom, out...)` is the encoder output alone.  The
error returned by `utfEncoder.Bytes` is discarded by the source (it
returns `nil` unconditionally on those paths). -/
def UTF8Conv (buf : List Nat) (encodingName : String) : Option (List Nat) :=
  match goToLower encodingName with
  | "utf8" => some buf
  | "utf8bom" => some buf
  | "utf16le" => some (utf16EncodeWithBom true buf)
  | "utf16be" => some (utf16EncodeWithBom false buf)
  | _ => none

/-! ## utils.go — NewUTFConvWriter -/

/-- An output file: its name and the bytes written to it so far. -/
structure GoFile where
  name : String
  written : List Nat
  deriving DecidableEq, Repr

/-- The UTF8Enc structure of utils.go (the `f` field is returned separately
since constructing the writer mutates the file by writing a BOM).
`utfEncoder = some le` models a non-nil UTF-16 encoder with endianness
`le`; `none` models the nil encoder. -/
structure UTF8Enc where
  encoding : String
  utfEncoder : Option Bool
  ioName : String
  deriving DecidableEq, Repr

/-- NewUTFConvWriter (utils.go lines 179–212).  `none` models the run-time
nil dereference: when `f` is nil the stdout fallback `u.f = os.Stdout` is
immediately overwritten by the unconditional `u.f = f`, and `f.Name()`
dereferences the nil pointer.  For an unrecognized encoding name the
switch's default arm does nothing and the constructor returns normally
with a nil encoder. -/
def NewUTFConvWriter (f : Option GoFile) (encodingName : String) :
    Option (UTF8Enc × GoFile) :=
  match f with
  | none => none
  | some file =>
    let u : UTF8Enc := { encoding := "", utfEncoder := none, ioName := file.name }
    match goToLower encodingName with
    | "utf8" => some (u, file)
    | "utf8bom" => some (u, { file with written := file.written ++ [0xEF, 0xBB, 0xBF] })
    | "utf16le" =>
      some ({ u with utfEncoder := some true },
            { file with written := file.written ++ [0xFF, 0xFE] })
    | "utf16be" =>
      some ({ u with utfEncoder := some false },
            { file with written := file.written ++ [0xFE, 0xFF] })
    | _ => some (u, file)

/-! ## Helper lemmas about BOM prefixes -/

theorem length_ge_of_take_eq {l r : List Nat} {n : Nat} (h : l.take n = r)
    (hr : r.length = n) : n ≤ l.length := by
  have := congrArg List.length h
  simp at this
  omega

theorem take3_ne_utf8bom_of_take4_utf32LE {l : List Nat} (h : l.take 4 = utf32LEbom) :
    l.take 3 ≠ utf8bom := by
  have h3 : l.take 3 = (l.take 4).take 3 := by
    rw [List.take_take]
    norm_num
  rw [h3, h]
  decide

/-! ## Claim theorems for the encoding side -/

/-- C9: for every zero-length stream and any value of the explicit
encoding-name argument, UTFReader returns the stream unchanged (the plain
source stream at position 0, no decoder attached), no error, and the empty
encoding label.  The zero-length stream is caught by the first read's EOF
check, so the content-probing path (whose own empty-read arm would return
the label "UTF32LE") can never observe an empty stream; the outcome below
is therefore the single outcome for empty streams. -/
theorem C9_empty_stream_unchanged (encodingName : String) (registry : String → Bool) :
    UTFReader [] encodingName registry = .ok (.plain [] 0, "") := rfl

/-- C10: for every encoding name, calling NewUTFConvWriter with a nil file
hits the nil dereference `f.Name()` (the stdout fallback assignment is
immediately overwritten by `u.f = f`), modelled as `none`; the constructor
is not total in its file argument. -/
theorem C10_nil_file_panics (encodingName : String) :
    NewUTFConvWriter none encodingName = none := rfl

/-- C1 (failing input): transcoding the one-byte UTF-8 text `A` to
`UTF8BOM` with UTF8Conv returns the bytes unchanged and NOT the 3-byte BOM
`EF BB BF` followed by the text, contradicting the claimed round-trip
property (the source assigns `bom` and then returns `buf` before the
`append(bom, out...)` is reached); moreover the label `UTF32LE`, which the
claim also ranges over, makes UTF8Conv dereference the nil `enc`
(modelled `none`) instead of transcoding at all. -/
theorem C1_utf8conv_bom_never_emitted :
    UTF8Conv [0x41] "UTF8BOM" = some [0x41] ∧
    UTF8Conv [0x41] "UTF8BOM" ≠ some [0xEF, 0xBB, 0xBF, 0x41] ∧
    UTF8Conv [0x41] "UTF32LE" = none := by
  refine ⟨rfl, ?_, rfl⟩
  decide

/-- C3: UTFReader's BOM detection is first-match-wins in the order UTF-8
BOM, UTF-32LE BOM, UTF-32BE BOM, UTF-16LE BOM, UTF-16BE BOM, with the
corresponding labels; in particular a stream whose first 4 bytes are
FF FE 00 00 is labelled UTF32LE and never UTF16LE. -/
theorem C3_bom_detection_order (content : List Nat) (name : String) (reg : String → Bool) :
    (content.take 3 = utf8bom →
      UTFReader content name reg = .ok (.plain content 3, "UTF8BOM")) ∧
    (content.take 3 ≠ utf8bom → content.take 4 = utf32LEbom →
      UTFReader content name reg = .ok (.transform content 0 (.utf32Dec false), "UTF32LE")) ∧
    (content.take 3 ≠ utf8bom → content.take 4 ≠ utf32LEbom → content.take 4 = utf32BEbom →
      UTFReader content name reg = .ok (.transform content 0 (.utf32Dec true), "UTF32BE")) ∧
    (content.take 3 ≠ utf8bom → content.take 4 ≠ utf32LEbom → content.take 4 ≠ utf32BEbom →
      content.take 2 = utf16LEbom →
      UTFReader content name reg = .ok (.transform content 0 .bomOverrideNop, "UTF16LE")) ∧
    (content.take 3 ≠ utf8bom → content.take 4 ≠ utf32LEbom → content.take 4 ≠ utf32BEbom →
      content.take 2 ≠ utf16LEbom → content.take 2 = utf16BEbom →
      UTFReader content name reg = .ok (.transform content 0 .bomOverrideNop, "UTF16BE")) ∧
    (content.take 4 = utf32LEbom →
      UTFReader content name reg = .ok (.transform content 0 (.utf32Dec false), "UTF32LE") ∧
      ∀ r, UTFReader content name reg = .ok r → r.2 ≠ "UTF16LE") := by
  refine ⟨?_, ?_, ?_, ?_, ?_, ?_⟩
  · intro h1
    have hlen : 3 ≤ content.length := length_ge_of_take_eq h1 (by decide)
    unfold UTFReader
    rw [if_neg (by omega), if_pos h1]
  · intro h1 h2
    have hlen : 4 ≤ content.length := length_ge_of_take_eq h2 (by decide)
    unfold UTFReader
    rw [if_neg (by omega), if_neg h1, if_pos h2]
  · intro h1 h2 h3
    have hlen : 4 ≤ content.length := length_ge_of_take_eq h3 (by decide)
    unfold UTFReader
    rw [if_neg (by omega), if_neg h1, if_neg h2, if_pos h3]
  · intro h1 h2 h3 h4
    have hlen : 2 ≤ content.length := length_ge_of_take_eq h4 (by decide)
    unfold UTFReader
    rw [if_neg (by omega), if_neg h1, if_neg h2, if_neg h3, if_pos h4]
  · intro h1 h2 h3 h4 h5
    have hlen : 2 ≤ content.length := length_ge_of_take_eq h5 (by decide)
    unfold UTFReader
    rw [if_neg (by omega), if_neg h1, if_neg h2, if_neg h3, if_neg h4, if_pos h5]
  · intro h2
    have h1 := take3_ne_utf8bom_of_take4_utf32LE h2
    have hlen : 4 ≤ content.length := length_ge_of_take_eq h2 (by decide)
    have heq : UTFReader content name reg =
        .ok (.transform content 0 (.utf32Dec false), "UTF32LE") := by
      unfold UTFReader
      rw [if_neg (by omega), if_neg h1, if_pos h2]
    refine ⟨heq, ?_⟩
    intro r hr
    rw [heq] at hr
    cases hr
    simp

/-- C3 witness: a concrete stream starting with FF FE 00 00. -/
theorem C3_bom_detection_order_witness :
    UTFReader [0xFF, 0xFE, 0x00, 0x00, 0x41] "" (fun _ => true) =
      .ok (.transform [0xFF, 0xFE, 0x00, 0x00, 0x41] 0 (.utf32Dec false), "UTF32LE") :=
  (C3_bom_detection_order [0xFF, 0xFE, 0x00, 0x00, 0x41] "" (fun _ => true)).2.1
    (by decide) (by decide)

/-- C6 (counterexample): contrary to the claim, the transcoding side does
not return an error for an encoding name outside the recognized set:
UTF8Conv panics on the nil encoder (modelled `none`, not an error value),
and NewUTFConvWriter proceeds normally, returning a writer with no encoder
and no error. -/
theorem C6_counterexample :
    UTF8Conv [0x42] "UTF32BE" = none ∧
    NewUTFConvWriter (some { name := "out", written := [] }) "UTF32BE" =
      some ({ encoding := "", utfEncoder := none, ioName := "out" },
            { name := "out", written := [] }) :=
  ⟨rfl, rfl⟩

/-- C6 (amended): unknown encoding names are rejected with an error only by
UTFReader; UTF8Conv instead hits a nil-encoder dereference (modelled
`none`) and NewUTFConvWriter silently proceeds with no conversion and no
error. -/
theorem C6_amended_unknown_encoding_handling :
    (∀ (content : List Nat) (name : String) (reg : String → Bool),
      name ≠ "" → content.length ≠ 0 →
      content.take 3 ≠ utf8bom → content.take 4 ≠ utf32LEbom →
      content.take 4 ≠ utf32BEbom → content.take 2 ≠ utf16LEbom →
      content.take 2 ≠ utf16BEbom → reg name = false →
      UTFReader content name reg = .error ("invalid encoding: " ++ name)) ∧
    (∀ (buf : List Nat) (name : String),
      goToLower name ∉ (["utf8", "utf8bom", "utf16le", "utf16be"] : List String) →
      UTF8Conv buf name = none) ∧
    (∀ (file : GoFile) (name : String),
      goToLower name ∉ (["utf8", "utf8bom", "utf16le", "utf16be"] : List String) →
      NewUTFConvWriter (some file) name =
        some ({ encoding := "", utfEncoder := none, ioName := file.name }, file)) := by
  refine ⟨?_, ?_, ?_⟩
  · intro content name reg hname hlen h1 h2 h3 h4 h5 hreg
    unfold UTFReader
    rw [if_neg hlen, if_neg h1, if_neg h2, if_neg h3, if_neg h4, if_neg h5]
    simp only [if_neg hname]
    rw [if_neg (by simp [hreg])]
  · intro buf name hname
    unfold UTF8Conv
    split <;> simp_all
  · intro file name hname
    unfold NewUTFConvWriter
    split <;> simp_all

/-- C6 witness for the amended theorem at concrete inputs. -/
theorem C6_amended_unknown_encoding_handling_witness :
    UTFReader [0x41] "bogus" (fun _ => false) = .error "invalid encoding: bogus" ∧
    UTF8Conv [] "windows-1252" = none ∧
    NewUTFConvWriter (some { name := "o", written := [] }) "windows-1252" =
      some ({ encoding := "", utfEncoder := none, ioName := "o" },
            { name := "o", written := [] }) :=
  ⟨C6_amended_unknown_encoding_handling.1 [0x41] "bogus" (fun _ => false)
      (by decide) (by decide) (by decide) (by decide) (by decide) (by decide)
      (by decide) rfl,
   C6_amended_unknown_encoding_handling.2.1 [] "windows-1252" (by decide),
   C6_amended_unknown_encoding_handling.2.2 { name := "o", written := [] }
      "windows-1252" (by decide)⟩

/-! ## pluralgender.go — data model

The package-level tag constants, the language-profile configuration
(`conf`, an external JSON-backed provider consumed through `GetPlural` and
`GetGenders`), and the issue messages.  Each `fmt.Sprintf` issue string of
the source becomes one constructor of `Issue` carrying the format
arguments in source order. -/

def pluralTag : Str := "#|#".toList

def genderTags : List Str :=
  ["#|f|#".toList, "#|n|#".toList, "#|c|#".toList, "#|m|#".toList,
   "#|ma|#".toList, "#|mi|#".toList, "#|mp|#".toList]

/-- The comma-joined diagnostic list built from a profile's gender tags
(`list += val + ","` in the source). -/
def mkList (l : List Str) : Str :=
  l.foldl (fun acc val => acc ++ val ++ [',']) []

/-- The external language-profile provider (config.Config): `GetPlural`
and `GetGenders` keyed by language name, each able to fail with a
processing error. -/
structure Config where
  getPlural : String → Except String Nat
  getGenders : String → Except String (List Str)

/-- The syntax-issue strings produced by the five checks, one constructor
per `fmt.Sprintf` call site, arguments in source order. -/
inductive Issue where
  /-- checkPlural: "Expected number of plural forms: %d - found: %d" -/
  | pluralForms (expected found : Nat)
  /-- checkGenderSender: "Error with gender form: %s - expected only one of: %s" -/
  | senderBadTag (gender : Str) (list : Str)
  /-- checkGenderSender: "Error with gender form: %s - no gender expected" -/
  | senderNoGender (gender : Str)
  /-- checkGenderSender: "Error with gender form - expected %s" -/
  | senderExpected (list : Str)
  /-- checkGenderReceiver: "Error with gender form: %s - expected one of each: %s" -/
  | recvBadTag (gender : Str) (list : Str)
  /-- checkGenderReceiver: "Error with gender form: %s - no gender expected" -/
  | recvNoGender (gender : Str)
  /-- checkGenderReceiver: "Error with gender form - expected %s" -/
  | recvExpected (list : Str)
  /-- checkGenderReceiver: "... the first gender tag should be at the begining
  of the string. Found at position %d" -/
  | recvFirstPos (pos : Int)
  /-- checkGenderSenderPlural: "Error with gender/plural form: found %d plural
  forms, while expecting %d separated wiht a  plural tag." -/
  | gspFallbackForms (found expected : Nat)
  /-- checkGenderSenderPlural: "Error with gender/plural form: this tag was
  unexpected %s" -/
  | gspUnexpectedTag (gender : Str)
  /-- checkGenderSenderPlural: "Error with gender/plural forms - counted %d
  while expecting %d" -/
  | gspCounted (counted expected : Nat)
  /-- checkGenderReceiverPlural fallback: "Error with gender/plural form:
  found %d plural forms, while expecting %d separated wiht a  plural tag." -/
  | grpFallbackForms (found expected : Nat)
  /-- checkGenderReceiverPlural: "Error with gender/plural form: %s - found %d
  plural forms while expecting %d of each gender group: %s" (the source
  passes the arguments (ct, gender, n, list) against the verb order) -/
  | grpCountErr (ct : Nat) (gender : Str) (expected : Nat) (list : Str)
  /-- checkGenderReceiverPlural: "Error with gender/plural form: %s - no
  gender expected" -/
  | grpNoGender (gender : Str)
  /-- checkGenderReceiverPlural: "Error with gender/plural form: incorrect
  order plural form: %d, gender tag: %s" -/
  | grpOrderErr (p : Nat) (gender : Str)
  deriving DecidableEq, Repr

/-! ## pluralgender.go — checkPlural (lines 83–97) -/

def checkPlural (conf : Config) (k : Str) (v : Str) (lang : String) :
    Except String (Option Issue) :=
  match conf.getPlural lang with
  | .error e => .error e
  | .ok n =>
    -- if n > 0 { n-- }  (e.g. 2 form plural -> 1 separator)
    let n1 := if 0 < n then n - 1 else n
    let ct := strCount v pluralTag
    if ct ≠ n1 then .ok (some (.pluralForms (n1 + 1) (ct + 1))) else .ok none

/-! ## pluralgender.go — checkGenderSender (lines 110–146) -/

/-- The gender-tag loop of checkGenderSender, threading the running `total`
and stopping at the first bad tag (break).  Returns the `res` set inside
the loop (if any) together with the final `total`. -/
def cgsLoop (v list : Str) : List Str → Nat → Option Issue × Nat
  | [], total => (none, total)
  | gender :: rest, total =>
    let ct := strCount v gender
    if 1 < ct ∨ (ct = 1 ∧ ¬ goContains list gender) then
      (some (if 0 < list.length then .senderBadTag gender list else .senderNoGender gender),
       total)
    else
      cgsLoop v list rest (if 0 < ct then total + 1 else total)

def checkGenderSender (conf : Config) (k : Str) (v : Str) (lang : String) :
    Except String (Option Issue) :=
  match conf.getGenders lang with
  | .error e => .error e
  | .ok l =>
    let list := mkList l
    let r := cgsLoop v list genderTags 0
    -- if len(l) > 0 && total != 1 { res = ... } (overwrites any loop issue)
    if 0 < l.length ∧ r.2 ≠ 1 then .ok (some (.senderExpected list)) else .ok r.1

/-! ## pluralgender.go — checkGenderReceiver (lines 159–203) -/

/-- The gender-tag loop of checkGenderReceiver, threading `total` and
`minIdx` (initial sentinel 32767) and stopping at the first bad tag. -/
def cgrLoop (v list : Str) : List Str → Nat → Int → Option Issue × Nat × Int
  | [], total, minIdx => (none, total, minIdx)
  | gender :: rest, total, minIdx =>
    let ct := strCount v gender
    let ok := goContains list gender
    if (ct ≠ 1 ∨ ¬ ok) ∧ (ct ≠ 0 ∨ ok) then
      (some (if 0 < list.length then .recvBadTag gender list else .recvNoGender gender),
       total, minIdx)
    else
      if ok ∧ ct = 1 then
        let idx := strIndexInt v gender
        cgrLoop v list rest (total + 1) (if idx < minIdx then idx else minIdx)
      else
        cgrLoop v list rest total minIdx

def checkGenderReceiver (conf : Config) (k : Str) (v : Str) (lang : String) :
    Except String (Option Issue) :=
  match conf.getGenders lang with
  | .error e => .error e
  | .ok l =>
    let list := mkList l
    let r := cgrLoop v list genderTags 0 32767
    let res1 := if r.2.1 ≠ l.length then some (.recvExpected list) else r.1
    let res2 := if 1 < l.length ∧ 0 < r.2.2 then some (.recvFirstPos r.2.2) else res1
    .ok res2

/-! ## pluralgender.go — checkGenderSenderPlural (lines 220–262) -/

/-- The gender-tag loop of checkGenderSenderPlural, threading the running
`pluralCount` and stopping at the first unexpected tag. -/
def gspLoop (v list : Str) : List Str → Nat → Option Issue × Nat
  | [], acc => (none, acc)
  | gender :: rest, acc =>
    let ct := strCount v gender
    if 0 < ct ∧ ¬ goContains list gender then (some (.gspUnexpectedTag gender), acc)
    else gspLoop v list rest (acc + ct)

def checkGenderSenderPlural (conf : Config) (k : Str) (v : Str) (lang : String) :
    Except String (Option Issue) :=
  match conf.getGenders lang with
  | .error e => .error e
  | .ok l =>
    match conf.getPlural lang with
    | .error e => .error e
    | .ok nbPluralExpected =>
      if 0 < nbPluralExpected ∧ l.length = 0 then
        -- exception: plurals but no gender: the plural tag is the separator
        let n1 := nbPluralExpected - 1
        let ct := strCount v pluralTag
        if ct ≠ n1 then .ok (some (.gspFallbackForms (ct + 1) (n1 + 1))) else .ok none
      else
        let list := mkList l
        let r := gspLoop v list genderTags 0
        -- if pluralCount != nbPluralExpected { res = ... } (overwrites loop issue)
        if r.2 ≠ nbPluralExpected then .ok (some (.gspCounted r.2 nbPluralExpected))
        else .ok r.1

/-! ## pluralgender.go — checkGenderReceiverPlural (lines 279–358)

The `arrayIdx` matrix (allocated `(nbPluralExpected+1) × (len(l)+2)`,
zero-initialized) is modelled as a total function `Nat → Nat → Int`; every
index used by the source in an execution where the counted occurrences
match stays inside the allocated bounds, so the total model agrees with
the Go array there (out of those bounds Go panics where the model reads
0 / ignores writes). -/

def Mat := Nat → Nat → Int

def matSet (m : Mat) (i j : Nat) (x : Int) : Mat :=
  fun a b => if a = i ∧ b = j then x else m a b

/-- The position-capture loop (source lines 328–333): for each `p` in the
given list, find the next occurrence of `gender` in the remaining `str`,
record its absolute position `idx + (len(v) - len(str))` in cell `(p, g)`,
and continue after that occurrence.  With Go's `-1` for a missing
occurrence the recorded value is `len(gender) - 1` short of the offset and
the slice is clamped (Go may panic there; unreachable when `gender`
occurs at least `length ps` times). -/
def captureGo (v gender : Str) (g : Nat) : List Nat → Str → Mat → Mat
  | [], _, m => m
  | p :: rest, str, m =>
    let idx := strIndexInt str gender
    let m1 := matSet m p g (idx + ((v.length : Int) - (str.length : Int)))
    captureGo v gender g rest (str.drop (idx + (gender.length : Int)).toNat) m1

/-- Phase 1 of checkGenderReceiverPlural (lines 313–337): per universe tag,
check the occurrence count and capture positions of the language's tags,
with an early return on the first bad tag. -/
def grpPhase1 (v list : Str) (n : Nat) : List Str → Nat → Mat → Except Issue Mat
  | [], _, m => .ok m
  | gender :: rest, g, m =>
    let ct := strCount v gender
    let ok := goContains list gender
    if (ct ≠ n ∨ ¬ ok) ∧ (ct ≠ 0 ∨ ok) then
      .error (if 0 < list.length then .grpCountErr ct gender n list else .grpNoGender gender)
    else
      if ok then grpPhase1 v list n rest (g + 1) (captureGo v gender g (List.range' 1 n) v m)
      else grpPhase1 v list n rest g m

/-- The inner loop of phase 2 (lines 345–354) over columns `g = 1..len(l)`
of row `p`: compare each cell against the previous row's recorded maximum
(cell `(p-1, len(l)+1)`) and accumulate the current row's maximum in cell
`(p, len(l)+1)`. -/
def grpRow (l : List Str) (p : Nat) : List Nat → Mat → Except Issue Mat
  | [], m => .ok m
  | g :: rest, m =>
    if m p g < m (p - 1) (l.length + 1) then
      .error (.grpOrderErr p (l.getD (g - 1) []))
    else
      let m1 := if m p (l.length + 1) < m p g then matSet m p (l.length + 1) (m p g) else m
      grpRow l p rest m1

/-- Phase 2 of checkGenderReceiverPlural (lines 344–355) over rows
`p = 1..nbPluralExpected`. -/
def grpPhase2 (l : List Str) : List Nat → Mat → Option Issue
  | [], _ => none
  | p :: rest, m =>
    match grpRow l p (List.range' 1 l.length) m with
    | .error e => some e
    | .ok m1 => grpPhase2 l rest m1

def checkGenderReceiverPlural (conf : Config) (k : Str) (v : Str) (lang : String) :
    Except String (Option Issue) :=
  match conf.getGenders lang with
  | .error e => .error e
  | .ok lgGenderTags =>
    let list := mkList lgGenderTags
    match conf.getPlural lang with
    | .error e => .error e
    | .ok nbPluralExpected =>
      if 0 < nbPluralExpected ∧ lgGenderTags.length = 0 then
        -- exception: plurals but no gender: the plural tag is the separator
        let n1 := nbPluralExpected - 1
        let ct := strCount v pluralTag
        if ct ≠ n1 then .ok (some (.grpFallbackForms (ct + 1) (n1 + 1))) else .ok none
      else
        match grpPhase1 v list nbPluralExpected genderTags 1 (fun _ _ => 0) with
        | .error i => .ok (some i)
        | .ok m => .ok (grpPhase2 lgGenderTags (List.range' 1 nbPluralExpected) m)

/-! ## pluralgender.go — token classification (FilterPlrGdr, lines 368–382,
and CheckPlrlGendrTokenVal, lines 419–432)

The two Go regular expressions are modelled operationally with Go's
leftmost-first match semantics (greedy `{1,2}`, `$`-anchored). -/

/-- The keys of the m_pluralGender dispatch map, in insertion order (Go map
iteration order is unspecified; the uses below are order-insensitive). -/
def pluralGenderSuffixes : List Str :=
  [":p".toList, ":n".toList, ":g".toList, ":np".toList, ":gp".toList]

/-- Character class `[a-zA-Z_\d:]` of both regexes. -/
def isIdentChar (c : Char) : Bool :=
  decide (('a' ≤ c ∧ c ≤ 'z') ∨ ('A' ≤ c ∧ c ≤ 'Z') ∨ ('0' ≤ c ∧ c ≤ '9') ∨ c = '_' ∨ c = ':')

/-- Character class `[png]`. -/
def isPngChar (c : Char) : Bool :=
  c = 'p' ∨ c = 'n' ∨ c = 'g'

/-- Match of the regex tail `(?:\x7b[a-zA-Z_\d:]+\x7d)?$` against the rest of
the string: either nothing remains, or an optional brace-delimited
identifier ends the string (the identifier class excludes the closing
brace, so maximal munch is exact). -/
def matchExtEnd : Str → Bool
  | [] => true
  | c :: r =>
    if c = '{' then
      match r.span isIdentChar with
      | (ident, rest2) => decide (ident ≠ [] ∧ rest2 = ['}'])
    else false

/-- One attempt of `(:[png]\x7b1,2\x7d)(?:\x7b...\x7d)?$` at the current start
position, greedy on the tag length, returning the captured tag. -/
def tryCapture : Str → Option Str
  | c0 :: c1 :: rest =>
    if c0 = ':' ∧ isPngChar c1 = true then
      match rest with
      | c2 :: rest2 =>
        if isPngChar c2 = true ∧ matchExtEnd rest2 = true then some [':', c1, c2]
        else if matchExtEnd rest then some [':', c1]
        else none
      | [] => some [':', c1]
    else none
  | _ => none

/-- Go `regexp.FindStringSubmatch` for the dispatcher's pattern: leftmost
start position wins. -/
def findCapturedTag : Str → Option Str
  | [] => none
  | c :: rest =>
    match tryCapture (c :: rest) with
    | some tag => some tag
    | none => findCapturedTag rest

/-- One attempt of FilterPlrGdr's pattern `:p\x7b[a-zA-Z_\d:]+\x7d$` at the
current start position. -/
def tryPlrExt : Str → Bool
  | c1 :: c2 :: c3 :: r =>
    if c1 = ':' ∧ c2 = 'p' ∧ c3 = '{' then
      match r.span isIdentChar with
      | (ident, rest2) => decide (ident ≠ [] ∧ rest2 = ['}'])
    else false
  | _ => false

/-- FilterPlrGdr's `isKeyPlrExtForm` (MatchString of `:p\x7b...\x7d$`). -/
def isKeyPlrExtForm : Str → Bool
  | [] => false
  | c :: rest => tryPlrExt (c :: rest) || isKeyPlrExtForm rest

/-- FilterPlrGdr (lines 368–382): keep the token names that end in one of
the five suffixes or match the `:p`-extension form. -/
def FilterPlrGdr (input : List Str) : List Str :=
  input.filter (fun tkn =>
    pluralGenderSuffixes.any (fun sufx => goHasSuffix tkn sufx || isKeyPlrExtForm tkn))

/-- CheckPlrlGendrTokenVal (lines 419–432): capture the tag with the
dispatcher regex and, when the captured tag is a key of m_pluralGender,
run the corresponding check; otherwise no issue and no error. -/
def CheckPlrlGendrTokenVal (conf : Config) (token v : Str) (lang : String) :
    Except String (Option Issue) :=
  match findCapturedTag token with
  | some tag =>
    if tag = ":p".toList then checkPlural conf token v lang
    else if tag = ":n".toList then checkGenderSender conf token v lang
    else if tag = ":g".toList then checkGenderReceiver conf token v lang
    else if tag = ":np".toList then checkGenderSenderPlural conf token v lang
    else if tag = ":gp".toList then checkGenderReceiverPlural conf token v lang
    else .ok none
  | none => .ok none

/-! ## Helper lemmas for the validator proofs -/

theorem goContains_nil {t : Str} (ht : t ≠ []) : goContains [] t = false := by
  cases t with
  | nil => exact absurd rfl ht
  | cons c q =>
    rw [goContains, strIndex]
    simp [List.isPrefixOf]

/-- Go's running-minimum update `if idx < minIdx then idx else minIdx`,
folded over a list. -/
def goMinFold (xs : List Int) (m : Int) : Int :=
  xs.foldl (fun acc i => if i < acc then i else acc) m

/-- Go's running-maximum update `if x > acc then x else acc`, folded over a
list. -/
def goMaxFold (xs : List Int) (m : Int) : Int :=
  xs.foldl (fun acc i => if acc < i then i else acc) m

theorem goMinFold_le_init (xs : List Int) (m : Int) : goMinFold xs m ≤ m := by
  induction xs generalizing m with
  | nil => simp [goMinFold]
  | cons x t ih =>
    rw [goMinFold, List.foldl_cons]
    have h1 := ih (if x < m then x else m)
    rw [goMinFold] at h1
    have h2 : (if x < m then x else m) ≤ m := by split <;> omega
    omega

theorem goMinFold_le_mem {xs : List Int} {x : Int} (m : Int) (hx : x ∈ xs) :
    goMinFold xs m ≤ x := by
  induction xs generalizing m with
  | nil => simp at hx
  | cons y t ih =>
    rw [goMinFold, List.foldl_cons]
    rcases List.mem_cons.mp hx with h | h
    · subst h
      have h1 := goMinFold_le_init t (if x < m then x else m)
      rw [goMinFold] at h1
      have h2 : (if x < m then x else m) ≤ x := by split <;> omega
      omega
    · exact ih _ h

theorem goMinFold_eq_init_or_mem (xs : List Int) (m : Int) :
    goMinFold xs m = m ∨ goMinFold xs m ∈ xs := by
  induction xs generalizing m with
  | nil => left; simp [goMinFold]
  | cons x t ih =>
    rw [goMinFold, List.foldl_cons]
    rcases ih (if x < m then x else m) with h | h
    · rw [goMinFold] at h
      rw [h]
      split
      · right; simp
      · left; rfl
    · right
      rw [goMinFold] at h
      simp [h]

theorem goMaxFold_le (xs : List Int) (m : Int) : m ≤ goMaxFold xs m := by
  induction xs generalizing m with
  | nil => simp [goMaxFold]
  | cons x t ih =>
    rw [goMaxFold, List.foldl_cons]
    have h1 := ih (if m < x then x else m)
    rw [goMaxFold] at h1
    have h2 : m ≤ (if m < x then x else m) := by split <;> omega
    omega

theorem goMaxFold_mem_le {xs : List Int} {x : Int} (m : Int) (hx : x ∈ xs) :
    x ≤ goMaxFold xs m := by
  induction xs generalizing m with
  | nil => simp at hx
  | cons y t ih =>
    rw [goMaxFold, List.foldl_cons]
    rcases List.mem_cons.mp hx with h | h
    · subst h
      have h1 := goMaxFold_le t (if m < x then x else m)
      rw [goMaxFold] at h1
      have h2 : x ≤ (if m < x then x else m) := by split <;> omega
      omega
    · exact ih _ h

theorem goMaxFold_eq_init_or_mem (xs : List Int) (m : Int) :
    goMaxFold xs m = m ∨ goMaxFold xs m ∈ xs := by
  induction xs generalizing m with
  | nil => left; simp [goMaxFold]
  | cons x t ih =>
    rw [goMaxFold, List.foldl_cons]
    rcases ih (if m < x then x else m) with h | h
    · rw [goMaxFold] at h
      rw [h]
      split
      · right; simp
      · left; rfl
    · right
      rw [goMaxFold] at h
      simp [h]

/-- Two running maxima over value lists with the same members and the same
initial value agree. -/
theorem goMaxFold_congr_mem {xs ys : List Int} (m : Int)
    (h : ∀ x, x ∈ xs ↔ x ∈ ys) : goMaxFold xs m = goMaxFold ys m := by
  have h1 : goMaxFold xs m ≤ goMaxFold ys m := by
    rcases goMaxFold_eq_init_or_mem xs m with he | hm
    · rw [he]; exact goMaxFold_le ys m
    · exact goMaxFold_mem_le m ((h _).mp hm)
  have h2 : goMaxFold ys m ≤ goMaxFold xs m := by
    rcases goMaxFold_eq_init_or_mem ys m with he | hm
    · rw [he]; exact goMaxFold_le xs m
    · exact goMaxFold_mem_le m ((h _).mpr hm)
  omega

/-! ## Concrete language profiles used to instantiate theorems -/

/-- A profile with 3 plural forms and no grammatical gender. -/
def confPlural3 : Config :=
  { getPlural := fun _ => .ok 3, getGenders := fun _ => .ok [] }

/-- A profile with 0 plural forms and no grammatical gender. -/
def confPlural0 : Config :=
  { getPlural := fun _ => .ok 0, getGenders := fun _ => .ok [] }

/-- A profile with 2 plural forms and genders listed m, f. -/
def confMF2 : Config :=
  { getPlural := fun _ => .ok 2,
    getGenders := fun _ => .ok ["#|m|#".toList, "#|f|#".toList] }

/-- A profile with 2 plural forms and genders listed f, m (the fixed
universe order). -/
def confFM2 : Config :=
  { getPlural := fun _ => .ok 2,
    getGenders := fun _ => .ok ["#|f|#".toList, "#|m|#".toList] }

/-- A profile with 1 plural form and the single gender f. -/
def confF1 : Config :=
  { getPlural := fun _ => .ok 1, getGenders := fun _ => .ok ["#|f|#".toList] }

/-- A profile with 2 plural forms and genders f, m. -/
def confFM1 : Config :=
  { getPlural := fun _ => .ok 1,
    getGenders := fun _ => .ok ["#|f|#".toList, "#|m|#".toList] }

/-! ## Claim C8 — checkPlural -/

/-- C8: with plural form count n, checkPlural reports no issue exactly when
the value contains n - 1 (truncated at 0) plural-separator tags, and on a
mismatch the issue reports expected and found as numbers of forms, i.e.
separator count plus one. -/
theorem C8_checkPlural_separator_rule (conf : Config) (lang : String) (k v : Str) (n : Nat)
    (h : conf.getPlural lang = .ok n) :
    (checkPlural conf k v lang = .ok none ↔ strCount v pluralTag = n - 1) ∧
    (strCount v pluralTag ≠ n - 1 →
      checkPlural conf k v lang =
        .ok (some (.pluralForms ((n - 1) + 1) (strCount v pluralTag + 1)))) := by
  have hn : (if 0 < n then n - 1 else n) = n - 1 := by split <;> omega
  by_cases hct : strCount v pluralTag = n - 1
  · constructor
    · simp [checkPlural, h, hn, hct]
    · intro hc
      exact absurd hct hc
  · constructor
    · simp [checkPlural, h, hn, hct]
    · intro _
      simp [checkPlural, h, hn, hct]

/-- C8 witness: profile with N = 3 and a value with one separator yields
the issue "expected 3 forms, found 2". -/
theorem C8_checkPlural_separator_rule_witness :
    checkPlural confPlural3 [] "a#|#b".toList "kan" = .ok (some (.pluralForms 3 2)) := by
  have h := (C8_checkPlural_separator_rule confPlural3 "kan" [] "a#|#b".toList 3 rfl).2
  have hct : strCount "a#|#b".toList pluralTag = 1 := by
    simp [strCount, strIndex, pluralTag, List.isPrefixOf]
  rw [hct] at h
  exact h (by omega)

/-! ## Claim C4 — empty gender set fallback in the plural+gender checks -/

theorem gspLoop_nil (v : Str) : ∀ (ts : List Str) (acc : Nat), (∀ t ∈ ts, t ≠ []) →
    (gspLoop v [] ts acc).2 = acc ∧
    ((gspLoop v [] ts acc).1 = none ↔ ∀ t ∈ ts, strCount v t = 0) := by
  intro ts
  induction ts with
  | nil => intro acc _; simp [gspLoop]
  | cons t rest ih =>
    intro acc hne
    have hnt : t ≠ [] := hne t (by simp)
    have hcont := goContains_nil hnt
    rw [gspLoop]
    by_cases hct : 0 < strCount v t
    · rw [if_pos (by simp [hcont]; omega)]
      constructor
      · rfl
      · simp
        intro h
        omega
    · rw [if_neg (by simp [hcont]; omega)]
      have hct0 : strCount v t = 0 := by omega
      rw [hct0, Nat.add_zero]
      have hrec := ih acc (fun x hx => hne x (by simp [hx]))
      constructor
      · exact hrec.1
      · rw [hrec.2]
        simp [List.forall_mem_cons, hct0]

theorem grpPhase1_nil (v : Str) : ∀ (ts : List Str) (g : Nat) (m : Mat),
    (∀ t ∈ ts, t ≠ []) →
    ((∀ t ∈ ts, strCount v t = 0) → grpPhase1 v [] 0 ts g m = .ok m) ∧
    (¬ (∀ t ∈ ts, strCount v t = 0) →
      ∃ t, grpPhase1 v [] 0 ts g m = .error (.grpNoGender t)) := by
  intro ts
  induction ts with
  | nil =>
    intro g m _
    constructor
    · intro _; rfl
    · intro h; exact absurd (by simp) h
  | cons t rest ih =>
    intro g m hne
    have hnt : t ≠ [] := hne t (by simp)
    have hcont := goContains_nil hnt
    rw [grpPhase1]
    by_cases hct : strCount v t = 0
    · rw [if_neg (by simp [hcont, hct])]
      rw [if_neg (by simp [hcont])]
      have := ih g m (fun x hx => hne x (by simp [hx]))
      constructor
      · intro h
        exact this.1 (fun x hx => h x (by simp [hx]))
      · intro h
        refine this.2 ?_
        intro hall
        exact h (by intro x hx; rcases List.mem_cons.mp hx with h1 | h1
                    · rw [h1]; exact hct
                    · exact hall x h1)
    · rw [if_pos (by simp [hcont, hct])]
      constructor
      · intro h
        exact absurd (h t (by simp)) hct
      · intro _
        exact ⟨t, by simp [mkList]⟩

/-- C4 (counterexample): with an empty gender set and plural form count 0,
checkGenderSenderPlural ignores the plural-separator count entirely (the
degradation branch requires N > 0), so a value with one separator yields
no issue although the claimed rule (separator count = max(N-1,0) = 0)
demands one. -/
theorem C4_counterexample :
    checkGenderSenderPlural confPlural0 [] "a#|#b".toList "x" = .ok none ∧
    strCount "a#|#b".toList pluralTag ≠ 0 := by
  constructor
  · have h := gspLoop_nil "a#|#b".toList genderTags 0 (by decide)
    have hall : ∀ t ∈ genderTags, strCount "a#|#b".toList t = 0 := by
      intro t ht
      fin_cases ht <;> simp [strCount, strIndex, List.isPrefixOf]
    have hfst : (gspLoop "a#|#b".toList [] genderTags 0).1 = none := h.2.mpr hall
    have hsnd : (gspLoop "a#|#b".toList [] genderTags 0).2 = 0 := h.1
    simp only [show "a#|#b".toList = (['a', '#', '|', '#', 'b'] : Str) from rfl]
      at hfst hsnd
    simp [checkGenderSenderPlural, confPlural0, mkList, hfst, hsnd]
  · simp [strCount, strIndex, pluralTag, List.isPrefixOf]

/-- C4 (amended): with an empty gender set, checkGenderSenderPlural and
checkGenderReceiverPlural degrade to the plural-separator rule only when
the plural form count is positive (no issue iff the value has N-1
separators); when the plural form count is 0 the degradation branch is not
taken and the checks instead report no issue exactly when no gender tag of
the 7-tag universe occurs, ignoring the separator count. -/
theorem C4_amended_gender_empty_fallback (conf : Config) (lang : String) (k v : Str) (n : Nat)
    (hg : conf.getGenders lang = .ok []) (hp : conf.getPlural lang = .ok n) :
    (0 < n →
      (checkGenderSenderPlural conf k v lang = .ok none ↔
        strCount v pluralTag = n - 1) ∧
      (checkGenderReceiverPlural conf k v lang = .ok none ↔
        strCount v pluralTag = n - 1)) ∧
    (n = 0 →
      (checkGenderSenderPlural conf k v lang = .ok none ↔
        ∀ t ∈ genderTags, strCount v t = 0) ∧
      (checkGenderReceiverPlural conf k v lang = .ok none ↔
        ∀ t ∈ genderTags, strCount v t = 0)) := by
  constructor
  · intro hn
    constructor
    · simp only [checkGenderSenderPlural, hg, hp]
      rw [if_pos (by simp [hn])]
      split <;> simp_all
    · simp only [checkGenderReceiverPlural, hg, hp]
      rw [if_pos (by simp [hn])]
      split <;> simp_all
  · intro hn0
    subst hn0
    have hm : mkList ([] : List Str) = [] := rfl
    constructor
    · have h := gspLoop_nil v genderTags 0 (by decide)
      simp only [checkGenderSenderPlural, hg, hp]
      rw [if_neg (by simp)]
      rw [hm, h.1]
      simp [h.2]
    · have h := grpPhase1_nil v genderTags 1 (fun _ _ => 0) (by decide)
      simp only [checkGenderReceiverPlural, hg, hp]
      rw [if_neg (by simp)]
      rw [hm]
      by_cases hall : ∀ t ∈ genderTags, strCount v t = 0
      · rw [h.1 hall]
        simp [grpPhase2, List.range']
        exact hall
      · obtain ⟨t, ht⟩ := h.2 hall
        rw [ht]
        simp [hall]

/-- C4 witness: a gender-less 3-form profile accepts a value with two
separators in both plural+gender checks. -/
theorem C4_amended_gender_empty_fallback_witness :
    checkGenderSenderPlural confPlural3 [] "a#|#b#|#c".toList "kan" = .ok none ∧
    checkGenderReceiverPlural confPlural3 [] "a#|#b#|#c".toList "kan" = .ok none := by
  have h := (C4_amended_gender_empty_fallback confPlural3 "kan" []
    "a#|#b#|#c".toList 3 rfl rfl).1 (by omega)
  have hct : strCount "a#|#b#|#c".toList pluralTag = 2 := by
    simp [strCount, strIndex, pluralTag, List.isPrefixOf]
  exact ⟨h.1.mpr (by rw [hct]), h.2.mpr (by rw [hct])⟩

/-! ## Claim C7 — checkGenderReceiver -/

theorem strCount_pos_iff {v t : Str} (ht : t ≠ []) :
    0 < strCount v t ↔ (strIndex v t).isSome := by
  cases t with
  | nil => exact absurd rfl ht
  | cons p q =>
    rw [strCount]
    cases hidx : strIndex v (p :: q) with
    | none => simp
    | some i =>
      change 0 < 1 + strCount (v.drop (i + (p :: q).length)) (p :: q) ↔ _
      simp

theorem strIndexInt_nonneg_of_count_pos {v t : Str} (ht : t ≠ [])
    (h : 0 < strCount v t) : 0 ≤ strIndexInt v t := by
  have := (strCount_pos_iff ht).mp h
  rw [strIndexInt]
  cases hidx : strIndex v t with
  | none => rw [hidx] at this; simp at this
  | some i => simp

theorem strIndexInt_eq_zero_iff {v t : Str} :
    strIndexInt v t = 0 ↔ strIndex v t = some 0 := by
  rw [strIndexInt]
  cases hidx : strIndex v t with
  | none => simp
  | some i => simp

/-- The good-tags characterization of the checkGenderReceiver loop: when
every universe tag occurs once if the profile contains it and never
otherwise, the loop finds no issue, counts the contained tags, and folds
the minimum of their first positions. -/
theorem cgrLoop_good (v list : Str) : ∀ (ts : List Str) (total : Nat) (minIdx : Int),
    (∀ t ∈ ts, (goContains list t = true → strCount v t = 1) ∧
               (goContains list t = false → strCount v t = 0)) →
    cgrLoop v list ts total minIdx =
      (none,
       total + (ts.filter (fun t => goContains list t)).length,
       goMinFold ((ts.filter (fun t => goContains list t)).map
         (fun t => strIndexInt v t)) minIdx) := by
  intro ts
  induction ts with
  | nil => intro total minIdx _; simp [cgrLoop, goMinFold]
  | cons t rest ih =>
    intro total minIdx hgood
    have hht := hgood t (by simp)
    have hrest : ∀ x ∈ rest, (goContains list x = true → strCount v x = 1) ∧
        (goContains list x = false → strCount v x = 0) :=
      fun x hx => hgood x (by simp [hx])
    rw [cgrLoop]
    cases hok : goContains list t with
    | true =>
      have hct : strCount v t = 1 := hht.1 hok
      rw [if_neg (by simp [hok, hct])]
      rw [if_pos (by simp [hok, hct])]
      rw [ih (total + 1) _ hrest]
      simp [List.filter_cons, hok, goMinFold]
      omega
    | false =>
      have hct : strCount v t = 0 := hht.2 hok
      rw [if_neg (by simp [hok, hct])]
      rw [if_neg (by simp [hok])]
      rw [ih total minIdx hrest]
      simp [List.filter_cons, hok]

/-- If the checkGenderReceiver loop reports no issue, every scanned tag was
good. -/
theorem cgrLoop_none_good (v list : Str) : ∀ (ts : List Str) (total : Nat) (minIdx : Int),
    (cgrLoop v list ts total minIdx).1 = none →
    ∀ t ∈ ts, (goContains list t = true → strCount v t = 1) ∧
              (goContains list t = false → strCount v t = 0) := by
  intro ts
  induction ts with
  | nil => intro total minIdx _; simp
  | cons t rest ih =>
    intro total minIdx hnone
    rw [cgrLoop] at hnone
    by_cases hbad : (strCount v t ≠ 1 ∨ ¬ goContains list t = true) ∧
        (strCount v t ≠ 0 ∨ goContains list t = true)
    · rw [if_pos hbad] at hnone
      simp at hnone
    · rw [if_neg hbad] at hnone
      intro x hx
      rcases List.mem_cons.mp hx with h1 | h1
      · subst h1
        constructor
        · intro hc
          rcases not_and_or.mp hbad with hb | hb <;> simp [hc] at hb <;> tauto
        · intro hc
          rcases not_and_or.mp hbad with hb | hb <;> simp [hc] at hb <;> tauto
      · by_cases hcase : goContains list t = true ∧ strCount v t = 1
        · rw [if_pos hcase] at hnone
          exact ih _ _ hnone x h1
        · rw [if_neg hcase] at hnone
          exact ih _ _ hnone x h1

/-- The tags of the universe contained in the profile's diagnostic list are
exactly the profile's tags, and there are as many of them. -/
theorem filter_contains_length {l : List Str} (hnd : l.Nodup)
    (hsub : ∀ t ∈ l, t ∈ genderTags)
    (hlist : ∀ t ∈ genderTags, (goContains (mkList l) t = true ↔ t ∈ l)) :
    (genderTags.filter (fun t => goContains (mkList l) t)).length = l.length ∧
    (∀ t, t ∈ genderTags.filter (fun t => goContains (mkList l) t) ↔ t ∈ l) := by
  have hmem : ∀ t, t ∈ genderTags.filter (fun t => goContains (mkList l) t) ↔ t ∈ l := by
    intro t
    rw [List.mem_filter]
    constructor
    · intro ⟨h1, h2⟩
      exact (hlist t h1).mp h2
    · intro h
      exact ⟨hsub t h, (hlist t (hsub t h)).mpr h⟩
  refine ⟨?_, hmem⟩
  have hndf : (genderTags.filter (fun t => goContains (mkList l) t)).Nodup :=
    List.Nodup.filter _ (by decide)
  have hperm : List.Perm (genderTags.filter (fun t => goContains (mkList l) t)) l :=
    (List.perm_ext_iff_of_nodup hndf hnd).mpr hmem
  exact hperm.length_eq

/-- C7 (amended): checkGenderReceiver reports no issue iff every tag in the
profile's gender set occurs exactly once, no universe tag outside it
occurs, and — only when the profile has more than one gender — the
earliest-occurring matched tag starts at position 0; with correct counts,
more than one gender, and no match at position 0, the issue cites the
minimum matched first position (capped by the sentinel 32767). -/
theorem C7_amended_receiver_rule (conf : Config) (lang : String) (k v : Str) (l : List Str)
    (hg : conf.getGenders lang = .ok l)
    (hnd : l.Nodup) (hsub : ∀ t ∈ l, t ∈ genderTags)
    (hlist : ∀ t ∈ genderTags, (goContains (mkList l) t = true ↔ t ∈ l)) :
    (checkGenderReceiver conf k v lang = .ok none ↔
      ((∀ t ∈ l, strCount v t = 1) ∧
       (∀ t ∈ genderTags, t ∉ l → strCount v t = 0) ∧
       (l.length ≤ 1 ∨ ∃ t ∈ l, strIndex v t = some 0))) ∧
    ((∀ t ∈ l, strCount v t = 1) → (∀ t ∈ genderTags, t ∉ l → strCount v t = 0) →
      1 < l.length → (¬ ∃ t ∈ l, strIndex v t = some 0) →
      ∃ m : Int, checkGenderReceiver conf k v lang = .ok (some (.recvFirstPos m)) ∧
        0 < m ∧ m ≤ 32767 ∧ (∀ t ∈ l, m ≤ strIndexInt v t) ∧
        (m = 32767 ∨ ∃ t ∈ l, strIndexInt v t = m)) := by
  have hne : ∀ t ∈ genderTags, t ≠ [] := by decide
  have hGoodIff : ((∀ t ∈ l, strCount v t = 1) ∧
      (∀ t ∈ genderTags, t ∉ l → strCount v t = 0)) ↔
      (∀ t ∈ genderTags, (goContains (mkList l) t = true → strCount v t = 1) ∧
        (goContains (mkList l) t = false → strCount v t = 0)) := by
    constructor
    · rintro ⟨h1, h2⟩ t ht
      constructor
      · intro hc
        exact h1 t ((hlist t ht).mp hc)
      · intro hc
        refine h2 t ht ?_
        intro hmem
        have hcc := (hlist t ht).mpr hmem
        rw [hc] at hcc
        exact absurd hcc (by simp)
    · intro h
      constructor
      · intro t htl
        exact (h t (hsub t htl)).1 ((hlist t (hsub t htl)).mpr htl)
      · intro t ht htl
        refine (h t ht).2 ?_
        cases hc : goContains (mkList l) t with
        | false => rfl
        | true => exact absurd ((hlist t ht).mp hc) htl
  have hflen := filter_contains_length hnd hsub hlist
  have hvalmem : ∀ t ∈ l, strIndexInt v t ∈
      ((genderTags.filter (fun t => goContains (mkList l) t)).map
        (fun t => strIndexInt v t)) := by
    intro t htl
    exact List.mem_map.mpr ⟨t, (hflen.2 t).mpr htl, rfl⟩
  constructor
  · constructor
    · intro hres
      simp only [checkGenderReceiver, hg] at hres
      rw [Except.ok.injEq] at hres
      split at hres
      case isTrue hcond => simp at hres
      case isFalse hcond =>
        split at hres
        case isTrue hcond2 => simp at hres
        case isFalse hcond2 =>
          have good := cgrLoop_none_good v (mkList l) genderTags 0 32767 hres
          have counts := hGoodIff.mpr good
          have hloop := cgrLoop_good v (mkList l) genderTags 0 32767 good
          rw [hloop] at hcond
          dsimp only at hcond
          refine ⟨counts.1, counts.2, ?_⟩
          rcases not_and_or.mp hcond with hl | hF
      

          · left; omega
          · right
            have hFle : goMinFold ((genderTags.filter
                (fun t => goContains (mkList l) t)).map
                (fun t => strIndexInt v t)) 32767 ≤ 0 := by omega
            rcases goMinFold_eq_init_or_mem ((genderTags.filter
                (fun t => goContains (mkList l) t)).map
                (fun t => strIndexInt v t)) 32767 with he | hm
            · rw [he] at hFle; omega
            · obtain ⟨t, htf, hval⟩ := List.mem_map.mp hm
              have htl : t ∈ l := (hflen.2 t).mp htf
              have hnn : 0 ≤ strIndexInt v t :=
                strIndexInt_nonneg_of_count_pos (hne t (hsub t htl))
                  (by rw [counts.1 t htl]; omega)
              refine ⟨t, htl, strIndexInt_eq_zero_iff.mp ?_⟩
              omega
    · rintro ⟨h1, h2, h3⟩
      have good := hGoodIff.mp ⟨h1, h2⟩
      have hloop := cgrLoop_good v (mkList l) genderTags 0 32767 good
      simp only [checkGenderReceiver, hg]
      rw [hloop]
      dsimp only
      have hFnotpos : ¬ (1 < l.length ∧ 0 < goMinFold ((genderTags.filter
          (fun t => goContains (mkList l) t)).map (fun t => strIndexInt v t)) 32767) := by
        rcases h3 with hl | ⟨t, htl, ht0⟩
        · intro hc; omega
        · intro hc
          have hle := goMinFold_le_mem 32767 (hvalmem t htl)
          have : strIndexInt v t = 0 := strIndexInt_eq_zero_iff.mpr ht0
          omega
      rw [if_neg hFnotpos, if_neg (by rw [hflen.1]; omega)]
  · intro h1 h2 hlen hpos0
    have good := hGoodIff.mp ⟨h1, h2⟩
    have hloop := cgrLoop_good v (mkList l) genderTags 0 32767 good
    have hFpos : 0 < goMinFold ((genderTags.filter
        (fun t => goContains (mkList l) t)).map (fun t => strIndexInt v t)) 32767 := by
      rcases goMinFold_eq_init_or_mem ((genderTags.filter
          (fun t => goContains (mkList l) t)).map
          (fun t => strIndexInt v t)) 32767 with he | hm
      · rw [he]; omega
      · obtain ⟨t, htf, hval⟩ := List.mem_map.mp hm
        have htl : t ∈ l := (hflen.2 t).mp htf
        have hnn : 0 ≤ strIndexInt v t :=
          strIndexInt_nonneg_of_count_pos (hne t (hsub t htl))
            (by rw [h1 t htl]; omega)
        have hneq : strIndexInt v t ≠ 0 := by
          intro hc
          exact hpos0 ⟨t, htl, strIndexInt_eq_zero_iff.mp hc⟩
        omega
    refine ⟨goMinFold ((genderTags.filter
        (fun t => goContains (mkList l) t)).map (fun t => strIndexInt v t)) 32767,
      ?_, hFpos, goMinFold_le_init _ _, ?_, ?_⟩
    · simp only [checkGenderReceiver, hg]
      rw [hloop]
      dsimp only
      rw [if_pos ⟨hlen, hFpos⟩]
    · intro t htl
      exact goMinFold_le_mem 32767 (hvalmem t htl)
    · rcases goMinFold_eq_init_or_mem ((genderTags.filter
          (fun t => goContains (mkList l) t)).map
          (fun t => strIndexInt v t)) 32767 with he | hm
      · left; exact he
      · right
        obtain ⟨t, htf, hval⟩ := List.mem_map.mp hm
        exact ⟨t, (hflen.2 t).mp htf, hval⟩

/-- C7 (counterexample): with the single-gender profile f and the value
`x#|f|#`, the tag counts are exactly right but the earliest (only) matched
tag starts at position 1, not 0 — yet checkGenderReceiver reports no
issue, because the source's position check requires `len(l) > 1`.  The
claim's iff (which requires position 0 for every non-empty profile) is
therefore false here. -/
theorem C7_counterexample :
    checkGenderReceiver confF1 [] "x#|f|#".toList "x" = .ok none ∧
    strCount "x#|f|#".toList "#|f|#".toList = 1 ∧
    strIndex "x#|f|#".toList "#|f|#".toList = some 1 := by
  refine ⟨?_, ?_, ?_⟩
  · simp [checkGenderReceiver, confF1, cgrLoop, genderTags, mkList, goContains,
      strIndexInt, strIndex, strCount, List.isPrefixOf]
  · simp [strCount, strIndex, List.isPrefixOf]
  · simp [strIndex, List.isPrefixOf]

/-- C7 witness: the spec's own receiver example (profile m, f in universe
order f, m; value with both tags once and the first at position 0) is
accepted. -/
theorem C7_amended_receiver_rule_witness :
    checkGenderReceiver confFM1 [] "#|m|#mot#|f|#mot2".toList "fr" = .ok none := by
  have h := C7_amended_receiver_rule confFM1 "fr" [] "#|m|#mot#|f|#mot2".toList
    ["#|f|#".toList, "#|m|#".toList] rfl (by decide) (by decide) ?hlist
  case hlist =>
    intro t ht
    fin_cases ht <;>
      simp [goContains, strIndex, mkList, List.isPrefixOf]
  refine h.1.mpr ⟨?_, ?_, ?_⟩
  · intro t ht
    fin_cases ht <;> simp [strCount, strIndex, List.isPrefixOf]
  · intro t ht htl
    clear h
    fin_cases ht <;> simp_all [strCount, strIndex, List.isPrefixOf]
  · right
    refine ⟨"#|m|#".toList, by simp, ?_⟩
    simp [strIndex, List.isPrefixOf]

/-! ## Claim C5 — token classification

Claim-side grammar definitions, following the claim's wording: a captured
tag is `:X` or `:XY` over the letters p, n, g; an extension is a
brace-delimited non-empty identifier; the patterns are anchored at the end
of the name. -/

/-- The claim's tag shapes `:X` and `:XY` with X, Y in p, n, g. -/
def pngTag (tag : Str) : Prop :=
  (∃ c1, isPngChar c1 = true ∧ tag = [':', c1]) ∨
  (∃ c1 c2, isPngChar c1 = true ∧ isPngChar c2 = true ∧ tag = [':', c1, c2])

/-- The claim's optional parameterized extension. -/
def extPart (ext : Str) : Prop :=
  ext = [] ∨
  ∃ ident, ident ≠ [] ∧ (∀ c ∈ ident, isIdentChar c = true) ∧
    ext = '{' :: (ident ++ ['}'])

/-- The name carries a png tag with optional extension anchored at its
end. -/
def tagFormAt (t : Str) : Prop :=
  ∃ pre tag ext, pngTag tag ∧ extPart ext ∧ t = pre ++ (tag ++ ext)

/-- The name ends in `:p` followed by a brace-delimited identifier (the
claim's only permitted extension position). -/
def pExtForm (t : Str) : Prop :=
  ∃ pre ident, ident ≠ [] ∧ (∀ c ∈ ident, isIdentChar c = true) ∧
    t = pre ++ ':' :: 'p' :: '{' :: (ident ++ ['}'])

/-- The name ends with one of the five dispatch suffixes. -/
def endsWithFive (t : Str) : Bool :=
  pluralGenderSuffixes.any (fun sufx => goHasSuffix t sufx)

theorem span_all_append {p : Char → Bool} (xs : Str) (hxs : ∀ c ∈ xs, p c = true)
    (d : Char) (hd : p d = false) (tail : Str) :
    (xs ++ d :: tail).span p = (xs, d :: tail) := by
  rw [List.span_eq_take_drop]
  induction xs with
  | nil => simp [List.takeWhile_cons, List.dropWhile_cons, hd]
  | cons x xs ih =>
    have hx : p x = true := hxs x (by simp)
    have ih2 := ih (fun c hc => hxs c (by simp [hc]))
    simp [List.takeWhile_cons, List.dropWhile_cons, hx] at ih2 ⊢
    exact ⟨ih2.1, ih2.2⟩

theorem matchExtEnd_iff (r : Str) : matchExtEnd r = true ↔ extPart r := by
  cases r with
  | nil => simp [matchExtEnd, extPart]
  | cons c rr =>
    by_cases hc : c = '{'
    · subst hc
      rcases hsp : rr.span isIdentChar with ⟨ident, rest2⟩
      have hsp2 := hsp
      rw [List.span_eq_take_drop] at hsp2
      have hid : rr.takeWhile isIdentChar = ident := by
        simpa using congrArg Prod.fst hsp2
      have hrest : rr.dropWhile isIdentChar = rest2 := by
        simpa using congrArg Prod.snd hsp2
      rw [matchExtEnd, if_pos rfl, hsp]
      simp only [decide_eq_true_eq]
      constructor
      · rintro ⟨hne, hr2⟩
        right
        subst hr2
        refine ⟨ident, hne, ?_, ?_⟩
        · intro ch hch
          rw [← hid] at hch
          exact List.mem_takeWhile_imp hch
        · have happ := List.takeWhile_append_dropWhile (p := isIdentChar) (l := rr)
          rw [hid, hrest] at happ
          rw [← happ]
      · intro hext
        rcases hext with h0 | ⟨ident2, hne2, hall2, heq2⟩
        · exact absurd h0 (by simp)
        · have hrr : rr = ident2 ++ ['}'] := by
            injection heq2
          have hspan := span_all_append ident2 hall2 '}' (by decide) []
          rw [hrr, hspan] at hsp
          have h1 : ident2 = ident := by
            simpa using congrArg Prod.fst hsp
          have h2 : (['}'] : Str) = rest2 := by
            simpa using congrArg Prod.snd hsp
          exact ⟨h1 ▸ hne2, h2.symm⟩
    · rw [matchExtEnd, if_neg hc]
      simp only [Bool.false_eq_true, false_iff]
      intro h
      rcases h with h | ⟨ident, _, _, heq⟩
      · simp at h
      · have : c = '{' := by injection heq
        exact hc this

theorem tryCapture_isSome_iff (s : Str) :
    (tryCapture s).isSome = true ↔
      ∃ tag ext, pngTag tag ∧ extPart ext ∧ s = tag ++ ext := by
  match s with
  | [] =>
    simp only [tryCapture, Option.isSome_none, Bool.false_eq_true, false_iff]
    rintro ⟨tag, ext, htag, _, heq⟩
    rcases htag with ⟨c1, _, rfl⟩ | ⟨c1, c2, _, _, rfl⟩ <;> simp at heq
  | [c0] =>
    simp only [tryCapture, Option.isSome_none, Bool.false_eq_true, false_iff]
    rintro ⟨tag, ext, htag, _, heq⟩
    rcases htag with ⟨c1, _, rfl⟩ | ⟨c1, c2, _, _, rfl⟩ <;> simp at heq
  | c0 :: c1 :: rest =>
    by_cases hok : c0 = ':' ∧ isPngChar c1 = true
    · simp only [tryCapture]
      rw [if_pos hok]
      obtain ⟨rfl, hc1⟩ := hok
      cases rest with
      | nil =>
        simp only [Option.isSome_some, true_iff]
        exact ⟨[':', c1], [], Or.inl ⟨c1, hc1, rfl⟩, Or.inl rfl, by simp⟩
      | cons c2 rest2 =>
        dsimp only
        by_cases h2 : isPngChar c2 = true ∧ matchExtEnd rest2 = true
        · rw [if_pos h2]
          simp only [Option.isSome_some, true_iff]
          exact ⟨[':', c1, c2], rest2, Or.inr ⟨c1, c2, hc1, h2.1, rfl⟩,
            (matchExtEnd_iff rest2).mp h2.2, by simp⟩
        · rw [if_neg h2]
          by_cases h1 : matchExtEnd (c2 :: rest2) = true
          · rw [if_pos h1]
            simp only [Option.isSome_some, true_iff]
            exact ⟨[':', c1], c2 :: rest2, Or.inl ⟨c1, hc1, rfl⟩,
              (matchExtEnd_iff _).mp h1, by simp⟩
          · rw [if_neg h1]
            simp only [Option.isSome_none, Bool.false_eq_true, false_iff]
            rintro ⟨tag, ext, htag, hext, heq⟩
            rcases htag with ⟨d1, hd1, rfl⟩ | ⟨d1, d2, hd1, hd2, rfl⟩
            · simp only [List.cons_append, List.nil_append, List.cons.injEq] at heq
              refine h1 ?_
              rw [heq.2.2]
              exact (matchExtEnd_iff _).mpr hext
            · simp only [List.cons_append, List.nil_append, List.cons.injEq] at heq
              refine h2 ⟨?_, ?_⟩
              · rw [heq.2.2.1]
                exact hd2
              · rw [heq.2.2.2]
                exact (matchExtEnd_iff _).mpr hext
    · simp only [tryCapture]
      rw [if_neg hok]
      simp only [Option.isSome_none, Bool.false_eq_true, false_iff]
      rintro ⟨tag, ext, htag, hext, heq⟩
      rcases htag with ⟨d1, hd1, rfl⟩ | ⟨d1, d2, hd1, hd2, rfl⟩ <;>
        (simp only [List.cons_append, List.nil_append, List.cons.injEq] at heq;
         exact hok ⟨heq.1, by rw [heq.2.1]; exact hd1⟩)

theorem findCapturedTag_isSome_iff (t : Str) :
    (findCapturedTag t).isSome = true ↔ tagFormAt t := by
  induction t with
  | nil =>
    simp only [findCapturedTag, Option.isSome_none, Bool.false_eq_true, false_iff]
    rintro ⟨pre, tag, ext, htag, hext, heq⟩
    rcases htag with ⟨c1, _, rfl⟩ | ⟨c1, c2, _, _, rfl⟩ <;> simp at heq
  | cons c rest ih =>
    rw [findCapturedTag]
    cases htc : tryCapture (c :: rest) with
    | some tag =>
      simp only [Option.isSome_some, true_iff]
      have hdec := (tryCapture_isSome_iff (c :: rest)).mp (by rw [htc]; rfl)
      obtain ⟨tag2, ext, htag, hext, heq⟩ := hdec
      exact ⟨[], tag2, ext, htag, hext, by simpa using heq⟩
    | none =>
      rw [ih]
      constructor
      · rintro ⟨pre, tag, ext, htag, hext, heq⟩
        exact ⟨c :: pre, tag, ext, htag, hext, by simp [heq]⟩
      · rintro ⟨pre, tag, ext, htag, hext, heq⟩
        cases pre with
        | nil =>
          exfalso
          have hsome : (tryCapture (c :: rest)).isSome = true :=
            (tryCapture_isSome_iff _).mpr ⟨tag, ext, htag, hext, by simpa using heq⟩
          rw [htc] at hsome
          simp at hsome
        | cons c2 pre2 =>
          injection heq with h1 h2
          exact ⟨pre2, tag, ext, htag, hext, h2⟩

theorem tryPlrExt_iff (s : Str) : tryPlrExt s = true ↔
    ∃ ident, ident ≠ [] ∧ (∀ c ∈ ident, isIdentChar c = true) ∧
      s = ':' :: 'p' :: '{' :: (ident ++ ['}']) := by
  match s with
  | [] =>
    simp only [tryPlrExt, Bool.false_eq_true, false_iff]
    rintro ⟨ident, _, _, heq⟩
    simp at heq
  | [c1] =>
    simp only [tryPlrExt, Bool.false_eq_true, false_iff]
    rintro ⟨ident, _, _, heq⟩
    simp at heq
  | [c1, c2] =>
    simp only [tryPlrExt, Bool.false_eq_true, false_iff]
    rintro ⟨ident, _, _, heq⟩
    simp at heq
  | c1 :: c2 :: c3 :: r =>
    by_cases hg : c1 = ':' ∧ c2 = 'p' ∧ c3 = '{'
    · obtain ⟨rfl, rfl, rfl⟩ := hg
      have hm : tryPlrExt (':' :: 'p' :: '{' :: r) = matchExtEnd ('{' :: r) := rfl
      rw [hm, matchExtEnd_iff]
      constructor
      · intro hext
        rcases hext with h0 | ⟨ident, hne, hall, heq⟩
        · simp at h0
        · injection heq with _ h2
          exact ⟨ident, hne, hall, by rw [h2]⟩
      · rintro ⟨ident, hne, hall, heq⟩
        right
        refine ⟨ident, hne, hall, ?_⟩
        simp only [List.cons.injEq, true_and] at heq
        rw [heq]
    · simp only [tryPlrExt]
      rw [if_neg hg]
      simp only [Bool.false_eq_true, false_iff]
      rintro ⟨ident, _, _, heq⟩
      injection heq with e1 h2
      injection h2 with e2 h3
      injection h3 with e3 _
      exact hg ⟨e1, e2, e3⟩

theorem isKeyPlrExtForm_iff (t : Str) : isKeyPlrExtForm t = true ↔ pExtForm t := by
  induction t with
  | nil =>
    simp only [isKeyPlrExtForm, Bool.false_eq_true, false_iff]
    rintro ⟨pre, ident, _, _, heq⟩
    simp at heq
  | cons c rest ih =>
    rw [isKeyPlrExtForm, Bool.or_eq_true, tryPlrExt_iff, ih]
    constructor
    · rintro (⟨ident, hne, hall, heq⟩ | ⟨pre, ident, hne, hall, heq⟩)
      · exact ⟨[], ident, hne, hall, by simpa using heq⟩
      · exact ⟨c :: pre, ident, hne, hall, by simp [heq]⟩
    · rintro ⟨pre, ident, hne, hall, heq⟩
      cases pre with
      | nil =>
        left
        exact ⟨ident, hne, hall, by simpa using heq⟩
      | cons c2 pre2 =>
        right
        injection heq with _ h2
        exact ⟨pre2, ident, hne, hall, h2⟩

/-- C5 (counterexample): the token name a:g\x7bx\x7d has no suffix in the
claim's grammar (it ends in the brace extension, which the claim permits
only after :p, and in none of the five suffixes — both checked through the
source's FilterPlrGdr predicates), yet CheckPlrlGendrTokenVal dispatches
it to the gender-receiver check and returns a syntax issue rather than no
issue and no error. -/
theorem C5_counterexample :
    endsWithFive "a:g\x7bx\x7d".toList = false ∧
    isKeyPlrExtForm "a:g\x7bx\x7d".toList = false ∧
    CheckPlrlGendrTokenVal confF1 "a:g\x7bx\x7d".toList [] "x" =
      .ok (some (.recvExpected "#|f|#,".toList)) := by
  refine ⟨rfl, rfl, ?_⟩
  have hfind : findCapturedTag "a:g\x7bx\x7d".toList = some ":g".toList := rfl
  simp only [CheckPlrlGendrTokenVal, hfind]
  simp only [if_true]
  simp [checkGenderReceiver, confF1, cgrLoop, genderTags, mkList, goContains,
    strIndexInt, strIndex, strCount, List.isPrefixOf]

/-- C5 (amended): FilterPlrGdr keeps a token name exactly when it ends with
one of the five suffixes or in :p followed by a brace-delimited identifier;
CheckPlrlGendrTokenVal dispatches on the captured regex tag, which accepts
the brace extension after any 1–2 letter p/n/g tag (so a:g\x7bx\x7d is
dispatched to the :g check though FilterPlrGdr drops it); when the regex
captures nothing, or the captured tag is not one of the five map keys, it
returns no issue and no error. -/
theorem C5_amended_classification (conf : Config) (lang : String) (v : Str) :
    (∀ token : Str,
      (FilterPlrGdr [token] = [token] ↔ (endsWithFive token = true ∨ pExtForm token))) ∧
    (∀ token : Str, findCapturedTag token = none →
      CheckPlrlGendrTokenVal conf token v lang = .ok none) ∧
    (∀ (token tag : Str), findCapturedTag token = some tag →
      tag ∉ pluralGenderSuffixes → CheckPlrlGendrTokenVal conf token v lang = .ok none) ∧
    (findCapturedTag "a:g\x7bx\x7d".toList = some ":g".toList ∧
      CheckPlrlGendrTokenVal conf "a:g\x7bx\x7d".toList v lang =
        checkGenderReceiver conf "a:g\x7bx\x7d".toList v lang ∧
      FilterPlrGdr ["a:g\x7bx\x7d".toList] = []) := by
  refine ⟨?_, ?_, ?_, rfl, ?_, rfl⟩
  · intro token
    have hpred : (pluralGenderSuffixes.any
        fun sufx => goHasSuffix token sufx || isKeyPlrExtForm token) = true ↔
        (endsWithFive token = true ∨ pExtForm token) := by
      rw [List.any_eq_true]
      constructor
      · rintro ⟨sufx, hs, hor⟩
        have hor2 : goHasSuffix token sufx = true ∨ isKeyPlrExtForm token = true := by
          simpa using hor
        rcases hor2 with h | h
        · left
          exact List.any_eq_true.mpr ⟨sufx, hs, h⟩
        · right
          exact (isKeyPlrExtForm_iff token).mp h
      · rintro (h | h)
        · obtain ⟨sufx, hs, hsf⟩ := List.any_eq_true.mp h
          exact ⟨sufx, hs, by simp [hsf]⟩
        · refine ⟨":p".toList, by simp [pluralGenderSuffixes], ?_⟩
          simp [(isKeyPlrExtForm_iff token).mpr h]
    unfold FilterPlrGdr
    simp only [List.filter_cons, List.filter_nil]
    constructor
    · intro hfil
      by_cases hp : (pluralGenderSuffixes.any
          fun sufx => goHasSuffix token sufx || isKeyPlrExtForm token) = true
      · exact hpred.mp hp
      · rw [if_neg hp] at hfil
        simp at hfil
    · intro h
      rw [if_pos (hpred.mpr h)]
  · intro token hnone
    simp only [CheckPlrlGendrTokenVal, hnone]
  · intro token tag hsome hnot
    simp only [pluralGenderSuffixes, List.mem_cons, List.not_mem_nil, or_false,
      not_or] at hnot
    obtain ⟨h1, h2, h3, h4, h5⟩ := hnot
    simp only [CheckPlrlGendrTokenVal, hsome]
    rw [if_neg h1, if_neg h2, if_neg h3, if_neg h4, if_neg h5]
  · have hfind : findCapturedTag "a:g\x7bx\x7d".toList = some ":g".toList := rfl
    simp only [CheckPlrlGendrTokenVal, hfind]
    simp only [if_true]
    rw [if_neg (by decide), if_neg (by decide)]

/-- C5 witness: a token without any recognized tag produces no issue and
no error. -/
theorem C5_amended_classification_witness :
    CheckPlrlGendrTokenVal confF1 "plainToken".toList [] "x" = .ok none :=
  (C5_amended_classification confF1 "x" []).2.1 "plainToken".toList rfl

/-! ## Claim C2 — checkGenderReceiverPlural ordering

Claim-side definitions, following the claim's wording: the position of the
p-th occurrence of a tag, the running maximum of the positions recorded in
a group (floored at the matrix's zero initialization), and the grouping
condition "each p-th occurrence starts at or after the maximum position
recorded in group p-1". -/

/-- Position of the p-th (1-based) occurrence of `tag` in `v`, under the
non-overlapping scan that the source uses. -/
def nthOcc (v tag : Str) (p : Nat) : Int :=
  ((occPositions v tag).getD (p - 1) 0 : Nat)

/-- The maximum tag position recorded in group `p` (0 for the artificial
group 0, matching the zero-initialized matrix row). -/
def groupMax (v : Str) (G : List Str) (p : Nat) : Int :=
  if p = 0 then 0 else goMaxFold (G.map (fun t => nthOcc v t p)) 0

/-- The claim's grouping condition: for each group index p in 1..n and each
tag in G, the p-th occurrence of the tag starts at a position at least the
maximum position recorded in group p-1. -/
def claimGroupsOKb (v : Str) (G : List Str) (n : Nat) : Bool :=
  (List.range' 1 n).all (fun p => G.all (fun t => decide (groupMax v G (p - 1) ≤ nthOcc v t p)))

theorem isPrefixOf_length_le {l1 l2 : Str} (h : l1.isPrefixOf l2 = true) :
    l1.length ≤ l2.length := by
  induction l1 generalizing l2 with
  | nil => simp
  | cons a as ih =>
    cases l2 with
    | nil => simp [List.isPrefixOf] at h
    | cons b bs =>
      simp only [List.isPrefixOf, Bool.and_eq_true] at h
      have := ih h.2
      simp
      omega

theorem strIndex_some_add_length_le {s pat : Str} {i : Nat} (hp : pat ≠ [])
    (h : strIndex s pat = some i) : i + pat.length ≤ s.length := by
  have h1 := strIndex_some_lt hp h
  have h2 := isPrefixOf_length_le (strIndex_some_isPrefixOf h)
  simp at h2
  omega

theorem occPositions_none {s : Str} {p : Char} {q : Str}
    (h : strIndex s (p :: q) = none) : occPositions s (p :: q) = [] := by
  rw [occPositions]
  split
  · rfl
  next i2 heq =>
    rw [h] at heq
    exact absurd heq (by simp)

theorem occPositions_some {s : Str} {p : Char} {q : Str} {i : Nat}
    (h : strIndex s (p :: q) = some i) :
    occPositions s (p :: q) =
      i :: (occPositions (s.drop (i + (p :: q).length)) (p :: q)).map
        (· + (i + (p :: q).length)) := by
  rw [occPositions]
  split
  next heq =>
    rw [h] at heq
    exact absurd heq (by simp)
  next i2 heq =>
    rw [h] at heq
    injection heq with h2
    subst h2
    rfl

theorem strIndexInt_of_some {s pat : Str} {i : Nat} (h : strIndex s pat = some i) :
    strIndexInt s pat = (i : Int) := by
  rw [strIndexInt, h]

/-- Cells written by the position-capture loop: capturing occurrences
`p0, ..., p0+k-1` of `gender` from the suffix `str` of the original value
records, in rows `p0..p0+k-1` of column `g`, the absolute positions of the
successive occurrences of `gender` in `str`, shifted by the part of `v`
already consumed. -/
theorem captureGo_cells (v : Str) {gp : Char} {gq : Str} (g : Nat) :
    ∀ (cnt p0 : Nat) (str : Str) (m : Mat),
      cnt ≤ (occPositions str (gp :: gq)).length →
      ∀ a b, captureGo v (gp :: gq) g (List.range' p0 cnt) str m a b =
        if p0 ≤ a ∧ a < p0 + cnt ∧ b = g then
          ((occPositions str (gp :: gq)).getD (a - p0) 0 : Int) +
            ((v.length : Int) - (str.length : Int))
        else m a b := by
  intro cnt
  induction cnt with
  | zero =>
    intro p0 str m _ a b
    rw [show List.range' p0 0 = [] from rfl, captureGo]
    rw [if_neg (by omega)]
  | succ k ih =>
    intro p0 str m hlen a b
    cases hidx : strIndex str (gp :: gq) with
    | none =>
      rw [occPositions_none hidx] at hlen
      simp at hlen
    | some i =>
      have hocc := occPositions_some hidx
      have hle : i + (gp :: gq).length ≤ str.length :=
        strIndex_some_add_length_le (by simp) hidx
      rw [List.range'_succ, captureGo]
      have hidxInt : strIndexInt str (gp :: gq) = (i : Int) := strIndexInt_of_some hidx
      rw [hidxInt]
      have htonat : ((i : Int) + ((gp :: gq).length : Int)).toNat = i + (gp :: gq).length := by
        omega
      rw [htonat]
      have hlen2 : k ≤ (occPositions (str.drop (i + (gp :: gq).length)) (gp :: gq)).length := by
        rw [hocc] at hlen
        rw [List.length_cons, List.length_map] at hlen
        omega
      rw [ih (p0 + 1) (str.drop (i + (gp :: gq).length))
        (matSet m p0 g ((i : Int) + ((v.length : Int) - (str.length : Int)))) hlen2 a b]
      have hdroplen : (str.drop (i + (gp :: gq).length)).length =
          str.length - (i + (gp :: gq).length) := by simp
      by_cases hb : b = g
      · subst hb
        by_cases ha : p0 + 1 ≤ a ∧ a < p0 + 1 + k
        · rw [if_pos ⟨ha.1, ha.2, rfl⟩, if_pos (by omega)]
          rw [hocc]
          have hidx2 : a - p0 = (a - (p0 + 1)) + 1 := by omega
          rw [hidx2]
          rw [List.getD_cons_succ]
          have hlt : a - (p0 + 1) <
              (occPositions (str.drop (i + (gp :: gq).length)) (gp :: gq)).length := by
            omega
          rw [List.getD_eq_getElem
            ((occPositions (str.drop (i + (gp :: gq).length)) (gp :: gq)).map
              (· + (i + (gp :: gq).length))) 0 (by simpa using hlt)]
          rw [List.getD_eq_getElem
            (occPositions (str.drop (i + (gp :: gq).length)) (gp :: gq)) 0 hlt]
          rw [List.getElem_map]
          push_cast
          omega
        · rw [if_neg (by omega)]
          by_cases ha2 : a = p0
          · subst ha2
            rw [if_pos (by omega)]
            rw [matSet]
            rw [if_pos ⟨rfl, rfl⟩]
            rw [hocc]
            simp
          · rw [if_neg (by omega), matSet, if_neg (by tauto)]
      · rw [if_neg (by tauto), if_neg (by tauto), matSet, if_neg (by tauto)]

/-- Phase 1 of checkGenderReceiverPlural on good inputs: no issue, and the
resulting matrix holds, in columns g, g+1, ... (one per contained tag, in
universe order) and rows 1..n, the positions of the successive occurrences
of the corresponding tags; all other cells keep their previous values. -/
theorem grpPhase1_ok_spec (v list : Str) (n : Nat) :
    ∀ (ts : List Str) (g : Nat) (m : Mat),
      (∀ t ∈ ts, t ≠ []) →
      (∀ t ∈ ts, (goContains list t = true → strCount v t = n) ∧
                 (goContains list t = false → strCount v t = 0)) →
      ∃ M, grpPhase1 v list n ts g m = .ok M ∧
        ∀ a b, M a b =
          if 1 ≤ a ∧ a ≤ n ∧ g ≤ b ∧
              b < g + (ts.filter (fun t => goContains list t)).length then
            (((occPositions v
              ((ts.filter (fun t => goContains list t)).getD (b - g) [])).getD (a - 1) 0 : Nat) : Int)
          else m a b := by
  intro ts
  induction ts with
  | nil =>
    intro g m _ _
    refine ⟨m, rfl, ?_⟩
    intro a b
    rw [if_neg (by simp)]
  | cons t rest ih =>
    intro g m hne hgood
    have hnet : t ≠ [] := hne t (by simp)
    have hgt := hgood t (by simp)
    have hner : ∀ x ∈ rest, x ≠ [] := fun x hx => hne x (by simp [hx])
    have hgr : ∀ x ∈ rest, (goContains list x = true → strCount v x = n) ∧
        (goContains list x = false → strCount v x = 0) :=
      fun x hx => hgood x (by simp [hx])
    rw [grpPhase1]
    cases hc : goContains list t with
    | true =>
      have hct : strCount v t = n := hgt.1 hc
      rw [if_neg (by simp [hc, hct])]
      rw [if_pos (by simp [hc])]
      have hfc : (t :: rest).filter (fun t => goContains list t) =
          t :: rest.filter (fun t => goContains list t) := by
        simp [List.filter_cons, hc]
      cases t with
      | nil => exact absurd rfl hnet
      | cons tp tq =>
        have hbound : n ≤ (occPositions v (tp :: tq)).length := by
          rw [← strCount_eq_length_occPositions v (tp :: tq) (by simp)]
          omega
        have hcap := captureGo_cells v g n 1 v m hbound
        obtain ⟨M, hM1, hM2⟩ := ih (g + 1)
          (captureGo v (tp :: tq) g (List.range' 1 n) v m) hner hgr
        refine ⟨M, hM1, ?_⟩
        intro a b
        rw [hfc]
        rw [List.length_cons]
        by_cases hin : 1 ≤ a ∧ a ≤ n ∧ g + 1 ≤ b ∧
            b < g + 1 + (rest.filter (fun t => goContains list t)).length
        · rw [hM2 a b, if_pos hin, if_pos (by omega)]
          have hbg : b - g = (b - (g + 1)) + 1 := by omega
          rw [hbg, List.getD_cons_succ]
        · rw [hM2 a b, if_neg hin, hcap a b]
          by_cases hbg : 1 ≤ a ∧ a ≤ n ∧ b = g
          · rw [if_pos (by omega)]
            rw [if_pos (by omega)]
            have hbg0 : b - g = 0 := by omega
            rw [hbg0, List.getD_cons_zero]
            simp
          · rw [if_neg (by omega), if_neg (by omega)]
    | false =>
      have hct : strCount v t = 0 := hgt.2 hc
      rw [if_neg (by simp [hc, hct])]
      rw [if_neg (by simp [hc])]
      have hfc : (t :: rest).filter (fun t => goContains list t) =
          rest.filter (fun t => goContains list t) := by
        simp [List.filter_cons, hc]
      obtain ⟨M, hM1, hM2⟩ := ih g m hner hgr
      refine ⟨M, hM1, ?_⟩
      intro a b
      rw [hfc]
      exact hM2 a b

/-- The row loop of phase 2 when every compared cell passes: no issue, the
only modified cell is the row maximum, which becomes the running maximum
of the row's compared cells. -/
theorem grpRow_ok_spec (l : List Str) (p : Nat) (hp : 1 ≤ p) :
    ∀ (gs : List Nat) (M : Mat),
      (∀ g ∈ gs, 1 ≤ g ∧ g ≤ l.length) →
      (∀ g ∈ gs, M (p - 1) (l.length + 1) ≤ M p g) →
      ∃ M2, grpRow l p gs M = .ok M2 ∧
        (∀ a b, ¬ (a = p ∧ b = l.length + 1) → M2 a b = M a b) ∧
        M2 p (l.length + 1) =
          goMaxFold (gs.map (fun g => M p g)) (M p (l.length + 1)) := by
  intro gs
  induction gs with
  | nil =>
    intro M _ _
    exact ⟨M, rfl, fun a b _ => rfl, by simp [goMaxFold]⟩
  | cons g gs ih =>
    intro M hrange hok
    have hg := hrange g (by simp)
    have hgok := hok g (by simp)
    rw [grpRow]
    rw [if_neg (by omega)]
    set M1 := if M p (l.length + 1) < M p g then matSet M p (l.length + 1) (M p g) else M with hM1def
    have hM1cells : ∀ a b, ¬ (a = p ∧ b = l.length + 1) → M1 a b = M a b := by
      intro a b hab
      rw [hM1def]
      split
      · rw [matSet, if_neg hab]
      · rfl
    have hM1max : M1 p (l.length + 1) =
        if M p (l.length + 1) < M p g then M p g else M p (l.length + 1) := by
      rw [hM1def]
      split
      · rw [matSet, if_pos ⟨rfl, rfl⟩]
      · rfl
    have hrange2 : ∀ x ∈ gs, 1 ≤ x ∧ x ≤ l.length := fun x hx => hrange x (by simp [hx])
    have hok2 : ∀ x ∈ gs, M1 (p - 1) (l.length + 1) ≤ M1 p x := by
      intro x hx
      have h1 : M1 (p - 1) (l.length + 1) = M (p - 1) (l.length + 1) :=
        hM1cells _ _ (by omega)
      have hx2 := hrange x (by simp [hx])
      have h2 : M1 p x = M p x := hM1cells _ _ (by omega)
      rw [h1, h2]
      exact hok x (by simp [hx])
    obtain ⟨M2, hM2run, hM2cells, hM2max⟩ := ih M1 hrange2 hok2
    refine ⟨M2, hM2run, ?_, ?_⟩
    · intro a b hab
      rw [hM2cells a b hab, hM1cells a b hab]
    · rw [hM2max]
      have hmapeq : gs.map (fun x => M1 p x) = gs.map (fun x => M p x) := by
        refine List.map_congr_left ?_
        intro x hx
        have hx2 := hrange x (by simp [hx])
        exact hM1cells p x (by omega)
      rw [hmapeq, hM1max]
      simp only [goMaxFold, List.map_cons, List.foldl_cons]

/-- The row loop of phase 2 hits an issue when any compared cell fails,
and the issue names the row and a profile tag. -/
theorem grpRow_err_spec (l : List Str) (p : Nat) (hp : 1 ≤ p) :
    ∀ (gs : List Nat) (M : Mat),
      (∀ g ∈ gs, 1 ≤ g ∧ g ≤ l.length) →
      (∃ g ∈ gs, M p g < M (p - 1) (l.length + 1)) →
      ∃ g ∈ gs, grpRow l p gs M = .error (.grpOrderErr p (l.getD (g - 1) [])) := by
  intro gs
  induction gs with
  | nil =>
    intro M _ hex
    simp at hex
  | cons g gs ih =>
    intro M hrange hex
    by_cases hbad : M p g < M (p - 1) (l.length + 1)
    · refine ⟨g, by simp, ?_⟩
      rw [grpRow, if_pos hbad]
    · rw [grpRow, if_neg hbad]
      set M1 := if M p (l.length + 1) < M p g then matSet M p (l.length + 1) (M p g) else M
        with hM1def
      have hM1cells : ∀ a b, ¬ (a = p ∧ b = l.length + 1) → M1 a b = M a b := by
        intro a b hab
        rw [hM1def]
        split
        · rw [matSet, if_neg hab]
        · rfl
      have hrange2 : ∀ x ∈ gs, 1 ≤ x ∧ x ≤ l.length := fun x hx => hrange x (by simp [hx])
      have hex2 : ∃ x ∈ gs, M1 p x < M1 (p - 1) (l.length + 1) := by
        obtain ⟨x, hx, hxlt⟩ := hex
        rcases List.mem_cons.mp hx with h1 | h1
        · exact absurd (h1 ▸ hxlt) hbad
        · refine ⟨x, h1, ?_⟩
          have hx2 := hrange x (by simp [h1])
          rw [hM1cells p x (by omega), hM1cells (p - 1) (l.length + 1) (by omega)]
          exact hxlt
      obtain ⟨x, hx, hrun⟩ := ih M1 hrange2 hex2
      exact ⟨x, by simp [hx], hrun⟩

/-- The chained form of phase 2's check over the position table `pos`:
process groups `p, p+1, ...` (`k` of them), each group requiring all its
positions to be at least the previous group's recorded maximum, and
recording its own maximum (from the zero-initialized cell) for the next
group. -/
def chainOK (pos : Nat → Nat → Int) (L : Nat) : Nat → Nat → Int → Bool
  | 0, _, _ => true
  | k + 1, p, prev =>
    ((List.range' 1 L).all (fun b => decide (prev ≤ pos p b))) &&
    chainOK pos L k (p + 1) (goMaxFold ((List.range' 1 L).map (fun b => pos p b)) 0)

theorem grpPhase2_spec (l : List Str) (pos : Nat → Nat → Int) :
    ∀ (k p0 : Nat) (M : Mat), 1 ≤ p0 →
      (∀ a b, p0 ≤ a → a < p0 + k → 1 ≤ b → b ≤ l.length → M a b = pos a b) →
      (∀ a, p0 ≤ a → M a (l.length + 1) = 0) →
      ((grpPhase2 l (List.range' p0 k) M = none ↔
        chainOK pos l.length k p0 (M (p0 - 1) (l.length + 1))) ∧
       (grpPhase2 l (List.range' p0 k) M = none ∨
        ∃ p t, grpPhase2 l (List.range' p0 k) M = some (.grpOrderErr p t) ∧
          p0 ≤ p ∧ p < p0 + k ∧ t ∈ l)) := by
  intro k
  induction k with
  | zero =>
    intro p0 M _ _ _
    constructor
    · rw [show List.range' p0 0 = [] from rfl]
      simp [grpPhase2, chainOK]
    · left
      rfl
  | succ k ih =>
    intro p0 M hp0 hcells hcol
    have hrange : ∀ g ∈ List.range' 1 l.length, 1 ≤ g ∧ g ≤ l.length := by
      intro g hg
      rw [List.mem_range'_1] at hg
      omega
    by_cases hviol : ∀ g ∈ List.range' 1 l.length, M (p0 - 1) (l.length + 1) ≤ M p0 g
    · obtain ⟨M2, hrun, hcellsM2, hmax⟩ := grpRow_ok_spec l p0 hp0 _ M hrange hviol
      have hstep : grpPhase2 l (List.range' p0 (k + 1)) M =
          grpPhase2 l (List.range' (p0 + 1) k) M2 := by
        rw [List.range'_succ, grpPhase2, hrun]
      have hcells2 : ∀ a b, p0 + 1 ≤ a → a < p0 + 1 + k → 1 ≤ b → b ≤ l.length →
          M2 a b = pos a b := by
        intro a b h1 h2 h3 h4
        rw [hcellsM2 a b (by omega)]
        exact hcells a b (by omega) (by omega) h3 h4
      have hcol2 : ∀ a, p0 + 1 ≤ a → M2 a (l.length + 1) = 0 := by
        intro a ha
        rw [hcellsM2 a _ (by omega)]
        exact hcol a (by omega)
      have hmax2 : M2 p0 (l.length + 1) =
          goMaxFold ((List.range' 1 l.length).map (fun b => pos p0 b)) 0 := by
        rw [hmax, hcol p0 (by omega)]
        congr 1
        refine List.map_congr_left ?_
        intro g hg
        have hg2 := hrange g hg
        exact hcells p0 g (by omega) (by omega) hg2.1 hg2.2
      obtain ⟨ihiff, iherr⟩ := ih (p0 + 1) M2 (by omega) hcells2 hcol2
      have hallcheck : ((List.range' 1 l.length).all
          (fun b => decide (M (p0 - 1) (l.length + 1) ≤ pos p0 b))) = true := by
        rw [List.all_eq_true]
        intro g hg
        have hg2 := hrange g hg
        rw [decide_eq_true_eq]
        rw [← hcells p0 g (by omega) (by omega) hg2.1 hg2.2]
        exact hviol g hg
      constructor
      · rw [hstep, chainOK, hallcheck, Bool.true_and, ihiff]
        have hprev : M2 (p0 + 1 - 1) (l.length + 1) =
            goMaxFold ((List.range' 1 l.length).map (fun b => pos p0 b)) 0 := by
          rw [show p0 + 1 - 1 = p0 from rfl, hmax2]
        rw [hprev]
      · rcases iherr with h | ⟨p, t, hsome, h1, h2, h3⟩
        · left
          rw [hstep, h]
        · right
          exact ⟨p, t, by rw [hstep, hsome], by omega, by omega, h3⟩
    · push_neg at hviol
      obtain ⟨g, hg, hlt⟩ := hviol
      obtain ⟨g2, hg2mem, hrun⟩ := grpRow_err_spec l p0 hp0 _ M hrange ⟨g, hg, hlt⟩
      have hstep : grpPhase2 l (List.range' p0 (k + 1)) M =
          some (.grpOrderErr p0 (l.getD (g2 - 1) [])) := by
        rw [List.range'_succ, grpPhase2, hrun]
      constructor
      · rw [hstep, chainOK]
        have hg3 := hrange g hg
        have hfail : ((List.range' 1 l.length).all
            (fun b => decide (M (p0 - 1) (l.length + 1) ≤ pos p0 b))) = false := by
          rw [← Bool.not_eq_true, List.all_eq_true]
          intro hall
          have := hall g hg
          rw [decide_eq_true_eq,
            ← hcells p0 g (by omega) (by omega) hg3.1 hg3.2] at this
          omega
        rw [hfail, Bool.false_and]
        simp
      · right
        have hg4 := hrange g2 hg2mem
        refine ⟨p0, l.getD (g2 - 1) [], hstep, by omega, by omega, ?_⟩
        rw [List.getD_eq_getElem l [] (by omega)]
        exact List.getElem_mem _

theorem range'_all_getD {α : Type} (xs : List α) (d : α) (f : α → Bool) :
    ((List.range' 1 xs.length).all (fun b => f (xs.getD (b - 1) d)) = true) ↔
      ∀ x ∈ xs, f x = true := by
  simp only [List.all_eq_true]
  constructor
  · intro h x hx
    obtain ⟨i, hi, hgx⟩ := List.getElem_of_mem hx
    have h2 := h (i + 1) (List.mem_range'_1.mpr ⟨by omega, by omega⟩)
    simp only [Nat.add_sub_cancel] at h2
    rwa [List.getD_eq_getElem xs d hi, hgx] at h2
  · intro h b hb
    rw [List.mem_range'_1] at hb
    have hlt : b - 1 < xs.length := by omega
    rw [List.getD_eq_getElem xs d hlt]
    exact h _ (List.getElem_mem _)

theorem range'_map_getD_mem {α β : Type} (xs : List α) (d : α) (f : α → β) (y : β) :
    (y ∈ (List.range' 1 xs.length).map (fun b => f (xs.getD (b - 1) d))) ↔ y ∈ xs.map f := by
  simp only [List.mem_map]
  constructor
  · rintro ⟨b, hb, hy⟩
    rw [List.mem_range'_1] at hb
    have hlt : b - 1 < xs.length := by omega
    rw [List.getD_eq_getElem xs d hlt] at hy
    exact ⟨xs.get ⟨b - 1, hlt⟩, List.getElem_mem _, hy⟩
  · rintro ⟨x, hx, hy⟩
    obtain ⟨i, hi, hgx⟩ := List.getElem_of_mem hx
    refine ⟨i + 1, List.mem_range'_1.mpr ⟨by omega, by omega⟩, ?_⟩
    simp only [Nat.add_sub_cancel]
    rw [List.getD_eq_getElem xs d hi, hgx, hy]

theorem chainOK_iff_groups (v : Str) (G : List Str) (pos : Nat → Nat → Int)
    (hpos : ∀ a b, 1 ≤ b → b ≤ G.length → pos a b = nthOcc v (G.getD (b - 1) []) a) :
    ∀ (k p0 : Nat), 1 ≤ p0 →
      (chainOK pos G.length k p0 (groupMax v G (p0 - 1)) = true ↔
        ∀ p, p0 ≤ p → p < p0 + k → ∀ t ∈ G, groupMax v G (p - 1) ≤ nthOcc v t p) := by
  intro k
  induction k with
  | zero =>
    intro p0 _
    simp only [chainOK]
    constructor
    · intro _ p hp1 hp2
      exact absurd hp2 (by omega)
    · intro _
      trivial
  | succ k ih =>
    intro p0 hp0
    rw [chainOK, Bool.and_eq_true]
    have hall : ((List.range' 1 G.length).all
        (fun b => decide (groupMax v G (p0 - 1) ≤ pos p0 b)) = true) ↔
        ∀ t ∈ G, groupMax v G (p0 - 1) ≤ nthOcc v t p0 := by
      simp only [List.all_eq_true]
      constructor
      · intro h t ht
        obtain ⟨i, hi, hgx⟩ := List.getElem_of_mem ht
        have h2 := h (i + 1) (List.mem_range'_1.mpr ⟨by omega, by omega⟩)
        simp only [decide_eq_true_eq] at h2
        rw [hpos p0 (i + 1) (by omega) (by omega)] at h2
        simp only [Nat.add_sub_cancel] at h2
        rwa [List.getD_eq_getElem G [] hi, hgx] at h2
      · intro h b hb
        rw [List.mem_range'_1] at hb
        have hlt : b - 1 < G.length := by omega
        simp only [decide_eq_true_eq]
        rw [hpos p0 b (by omega) (by omega), List.getD_eq_getElem G [] hlt]
        exact h _ (List.getElem_mem _)
    have hmapeq : (List.range' 1 G.length).map (fun b => pos p0 b) =
        (List.range' 1 G.length).map (fun b => nthOcc v (G.getD (b - 1) []) p0) := by
      refine List.map_congr_left ?_
      intro b hb
      rw [List.mem_range'_1] at hb
      exact hpos p0 b (by omega) (by omega)
    have hfold : goMaxFold ((List.range' 1 G.length).map (fun b => pos p0 b)) 0 =
        groupMax v G p0 := by
      rw [groupMax, if_neg (by omega), hmapeq]
      exact goMaxFold_congr_mem 0 (fun x => range'_map_getD_mem G [] (fun t => nthOcc v t p0) x)
    rw [hfold, show groupMax v G p0 = groupMax v G (p0 + 1 - 1) from by rw [Nat.add_sub_cancel]]
    rw [ih (p0 + 1) (by omega), hall]
    constructor
    · rintro ⟨h1, h2⟩ p hp1 hp2 t ht
      by_cases hpp : p = p0
      · subst hpp
        exact h1 t ht
      · exact h2 p (by omega) (by omega) t ht
    · intro h
      exact ⟨fun t ht => h p0 (by omega) (by omega) t ht,
        fun p h1 h2 t ht => h p (by omega) (by omega) t ht⟩

theorem claimGroupsOKb_iff (v : Str) (G : List Str) (n : Nat) :
    claimGroupsOKb v G n = true ↔
      ∀ p, 1 ≤ p → p < 1 + n → ∀ t ∈ G, groupMax v G (p - 1) ≤ nthOcc v t p := by
  rw [claimGroupsOKb]
  simp only [List.all_eq_true]
  constructor
  · intro h p h1 h2 t ht
    have h3 := h p (List.mem_range'_1.mpr ⟨h1, h2⟩)
    simp only [List.all_eq_true, decide_eq_true_eq] at h3
    exact h3 t ht
  · intro h p hp
    rw [List.mem_range'_1] at hp
    simp only [List.all_eq_true, decide_eq_true_eq]
    exact h p hp.1 hp.2

theorem groupMax_congr (v : Str) {G1 G2 : List Str} (h : ∀ t, t ∈ G1 ↔ t ∈ G2) (p : Nat) :
    groupMax v G1 p = groupMax v G2 p := by
  rw [groupMax, groupMax]
  by_cases hp : p = 0
  · rw [if_pos hp, if_pos hp]
  · rw [if_neg hp, if_neg hp]
    refine goMaxFold_congr_mem 0 ?_
    intro x
    simp only [List.mem_map]
    constructor
    · rintro ⟨t, ht, hx⟩
      exact ⟨t, (h t).mp ht, hx⟩
    · rintro ⟨t, ht, hx⟩
      exact ⟨t, (h t).mpr ht, hx⟩

theorem claimGroupsOKb_congr (v : Str) {G1 G2 : List Str}
    (h : ∀ t, t ∈ G1 ↔ t ∈ G2) (n : Nat) :
    (claimGroupsOKb v G1 n = true ↔ claimGroupsOKb v G2 n = true) := by
  rw [claimGroupsOKb_iff, claimGroupsOKb_iff]
  constructor
  · intro hh p h1 h2 t ht
    rw [← groupMax_congr v h (p - 1)]
    exact hh p h1 h2 t ((h t).mpr ht)
  · intro hh p h1 h2 t ht
    rw [groupMax_congr v h (p - 1)]
    exact hh p h1 h2 t ((h t).mp ht)

/-- C2 (amended): with a profile whose gender set is non-empty, in a value
where every profile tag occurs exactly n times (the plural form count) and
no universe tag outside the profile occurs, checkGenderReceiverPlural
reports no issue iff for each group index p in 1..n and each profile tag,
the p-th occurrence of that tag starts at a position at least the maximum
p-1-th occurrence position over the profile tags (group p-1's running
maximum); any reported issue is a grpOrderErr citing a group index in 1..n
and some tag of the profile set — but, the cited tag being looked up by the
violating column's index in the universe-filtered order, not necessarily
the offending tag. -/
theorem C2_amended_receiver_plural_grouping (conf : Config) (lang : String) (k v : Str)
    (l : List Str) (n : Nat)
    (hg : conf.getGenders lang = .ok l)
    (hp : conf.getPlural lang = .ok n)
    (hnil : l ≠ [])
    (hnd : l.Nodup) (hsub : ∀ t ∈ l, t ∈ genderTags)
    (hlist : ∀ t ∈ genderTags, (goContains (mkList l) t = true ↔ t ∈ l))
    (hcnt : ∀ t ∈ l, strCount v t = n)
    (hout : ∀ t ∈ genderTags, t ∉ l → strCount v t = 0) :
    (checkGenderReceiverPlural conf k v lang = .ok none ↔
      claimGroupsOKb v l n = true) ∧
    (checkGenderReceiverPlural conf k v lang = .ok none ∨
      ∃ p t, checkGenderReceiverPlural conf k v lang = .ok (some (.grpOrderErr p t)) ∧
        1 ≤ p ∧ p ≤ n ∧ t ∈ l) := by
  have hnegen : ∀ t ∈ genderTags, t ≠ [] := by decide
  have hgood : ∀ t ∈ genderTags, (goContains (mkList l) t = true → strCount v t = n) ∧
      (goContains (mkList l) t = false → strCount v t = 0) := by
    intro t ht
    constructor
    · intro hc
      exact hcnt t ((hlist t ht).mp hc)
    · intro hc
      refine hout t ht ?_
      intro hmem
      have hcc := (hlist t ht).mpr hmem
      rw [hc] at hcc
      exact absurd hcc (by simp)
  obtain ⟨M, hM1, hM2⟩ :=
    grpPhase1_ok_spec v (mkList l) n genderTags 1 (fun _ _ => 0) hnegen hgood
  have hflen := filter_contains_length hnd hsub hlist
  set okTags := genderTags.filter (fun t => goContains (mkList l) t) with hok
  have hcells : ∀ a b, 1 ≤ a → a < 1 + n → 1 ≤ b → b ≤ l.length →
      M a b = nthOcc v (okTags.getD (b - 1) []) a := by
    intro a b h1 h2 h3 h4
    rw [hM2 a b, if_pos ?_]
    · rfl
    · exact ⟨h1, by omega, h3, by have := hflen.1; omega⟩
  have hcol : ∀ a, 1 ≤ a → M a (l.length + 1) = 0 := by
    intro a ha
    rw [hM2 a (l.length + 1), if_neg ?_]
    intro hcond
    have h4 := hcond.2.2.2
    have := hflen.1
    omega
  obtain ⟨hiff, herr⟩ :=
    grpPhase2_spec l (fun a b => nthOcc v (okTags.getD (b - 1) []) a) n 1 M
      (by omega) (fun a b h1 h2 h3 h4 => hcells a b h1 h2 h3 h4) hcol
  have hM0 : M 0 (l.length + 1) = 0 := by
    rw [hM2 0 (l.length + 1), if_neg (by omega)]
  rw [show (1 : Nat) - 1 = 0 from rfl, hM0] at hiff
  have hchain := chainOK_iff_groups v okTags
      (fun a b => nthOcc v (okTags.getD (b - 1) []) a)
      (fun a b h1 h2 => rfl) n 1 (by omega)
  rw [show (1 : Nat) - 1 = 0 from rfl] at hchain
  have hgm0 : groupMax v okTags 0 = 0 := by rw [groupMax, if_pos rfl]
  rw [hgm0, hflen.1] at hchain
  have hclaimIff : claimGroupsOKb v l n = true ↔
      ∀ p, 1 ≤ p → p < 1 + n → ∀ t ∈ okTags, groupMax v okTags (p - 1) ≤ nthOcc v t p :=
    ((claimGroupsOKb_congr v hflen.2 n).symm).trans (claimGroupsOKb_iff v okTags n)
  have hmain : grpPhase2 l (List.range' 1 n) M = none ↔ claimGroupsOKb v l n = true :=
    hiff.trans (hchain.trans hclaimIff.symm)
  have hrun : checkGenderReceiverPlural conf k v lang =
      .ok (grpPhase2 l (List.range' 1 n) M) := by
    simp only [checkGenderReceiverPlural, hg, hp]
    rw [if_neg (fun hcond => hnil (List.length_eq_zero.mp hcond.2)), hM1]
  refine ⟨?_, ?_⟩
  · rw [hrun, Except.ok.injEq]
    exact hmain
  · rcases herr with h | ⟨p, t, hsome, h1, h2, h3⟩
    · left
      rw [hrun, h]
    · right
      exact ⟨p, t, by rw [hrun, hsome], h1, by omega, h3⟩

/-- C2 (counterexample): with profile order m, f (two plural forms) and the
spec's own bad example value, the check reports the violation as group 2 /
tag f — yet f's second occurrence (position 18) respects group 1's maximum
(12) while m's second occurrence (position 6) violates it, so the offending
gender tag is m, not the cited f: the report looks the tag up by the
universe-filtered column index g in the profile list (lgGenderTags[g-1]),
which cites the wrong tag whenever the profile order differs from the
universe order. -/
theorem C2_counterexample :
    checkGenderReceiverPlural confMF2 [] "#|m|#A#|m|#C#|f|#B#|f|#D".toList "x" =
      .ok (some (.grpOrderErr 2 "#|f|#".toList)) ∧
    strCount "#|m|#A#|m|#C#|f|#B#|f|#D".toList "#|m|#".toList = 2 ∧
    strCount "#|m|#A#|m|#C#|f|#B#|f|#D".toList "#|f|#".toList = 2 ∧
    groupMax "#|m|#A#|m|#C#|f|#B#|f|#D".toList
      ["#|m|#".toList, "#|f|#".toList] 1 ≤
      nthOcc "#|m|#A#|m|#C#|f|#B#|f|#D".toList "#|f|#".toList 2 ∧
    nthOcc "#|m|#A#|m|#C#|f|#B#|f|#D".toList "#|m|#".toList 2 <
      groupMax "#|m|#A#|m|#C#|f|#B#|f|#D".toList
        ["#|m|#".toList, "#|f|#".toList] 1 := by
  refine ⟨?_, ?_, ?_, ?_, ?_⟩
  · simp [checkGenderReceiverPlural, confMF2, mkList, genderTags, goContains, strIndex,
      strCount, strIndexInt, occPositions, grpPhase1, grpPhase2, grpRow, captureGo, matSet,
      List.range', pluralTag, List.isPrefixOf]
  · simp [strCount, strIndex, List.isPrefixOf]
  · simp [strCount, strIndex, List.isPrefixOf]
  · simp [groupMax, nthOcc, goMaxFold, occPositions, strIndex, List.isPrefixOf]
  · simp [groupMax, nthOcc, goMaxFold, occPositions, strIndex, List.isPrefixOf]

/-- C2 witness: the spec's good example (profile f, m with two plural
forms; value m A f B m C f D) is accepted, via the amended grouping rule. -/
theorem C2_amended_receiver_plural_grouping_witness :
    checkGenderReceiverPlural confFM2 [] "#|m|#A#|f|#B#|m|#C#|f|#D".toList "x" = .ok none := by
  have hclaim : claimGroupsOKb "#|m|#A#|f|#B#|m|#C#|f|#D".toList
      ["#|f|#".toList, "#|m|#".toList] 2 = true := by
    simp [claimGroupsOKb, groupMax, nthOcc, goMaxFold, occPositions, strIndex,
      List.range', List.isPrefixOf]
  have h := C2_amended_receiver_plural_grouping confFM2 "x" []
    "#|m|#A#|f|#B#|m|#C#|f|#D".toList ["#|f|#".toList, "#|m|#".toList] 2
    rfl rfl (by decide) (by decide) (by decide) (by decide) ?hcnt ?hout
  case hcnt =>
    intro t ht
    fin_cases ht <;> simp [strCount, strIndex, List.isPrefixOf]
  case hout =>
    intro t ht htl
    fin_cases ht <;> simp_all [strCount, strIndex, List.isPrefixOf]
  exact h.1.mpr hclaim
